import Mathlib

/-!
# Mini-Physics-Engine: Verlet particles in a circular container

A shallow embedding of the physics functions of `n_collision.cpp` (and of the
single-ball and four-wall variants in the two other files).

* C++ `double` is idealised as an ordered field `α`; the theorems are stated over
  `ℝ` with `Real.sqrt` for the library `sqrt`.
* The definitions take the square-root function as their first argument, so that
  they stay executable over any ordered field with decidable order.
* `Circle&` parameters are modelled by returning the updated record(s).
* `std::vector<Circle>` is a `List`; `balls[i]` is read with `balls[i]?` and
  written with `List.set`.
-/

namespace MiniPhysics

/-! ## Constants (`#define`s of n_collision.cpp) -/

/-- `#define GRAVITY 0.5`. -/
def GRAVITY {α : Type} [LinearOrderedField α] : α := 1 / 2

/-- `#define ELASTICITY 0.9`. -/
def ELASTICITY {α : Type} [LinearOrderedField α] : α := 9 / 10

/-- `#define SUBSTEP_COUNT 8`. -/
def SUBSTEP_COUNT : Nat := 8

/-! ## Data model -/

/-- `struct Circle` of n_collision.cpp: position, previous position, radius, colour. -/
structure Circle (α : Type) where
  x : α
  y : α
  oldx : α
  oldy : α
  radius : α
  color : Nat

/-! ## Physics functions of n_collision.cpp -/

section Physics

variable {α : Type} [LinearOrderedField α]

/-- `UpdateCircle` (n_collision.cpp, lines 90-102): Verlet integration step. -/
def UpdateCircle (c : Circle α) : Circle α :=
  let vx := c.x - c.oldx
  let vy := c.y - c.oldy
  { c with
    oldx := c.x
    oldy := c.y
    x := c.x + vx
    y := c.y + (vy + GRAVITY) }

/-- The quantity `dist` computed at the top of `ApplyCircularConstraint`
(lines 114-117): distance from the container centre to the particle centre. -/
def centreDist (sqrt : α → α) (particle container : Circle α) : α :=
  let dx := particle.x - container.x
  let dy := particle.y - container.y
  sqrt (dx * dx + dy * dy)

/-- `ApplyCircularConstraint` (n_collision.cpp, lines 107-143). -/
def ApplyCircularConstraint (sqrt : α → α) (particle container : Circle α) : Circle α :=
  let vx := particle.x - particle.oldx
  let vy := particle.y - particle.oldy
  let dx := particle.x - container.x
  let dy := particle.y - container.y
  let dist := sqrt (dx * dx + dy * dy)
  let maxDist := container.radius - particle.radius
  if dist > maxDist then
    let nx := dx / dist
    let ny := dy / dist
    let px := container.x + nx * maxDist
    let py := container.y + ny * maxDist
    let dot := vx * nx + vy * ny
    let vx1 := vx - 2 * dot * nx
    let vy1 := vy - 2 * dot * ny
    let vx2 := vx1 * ELASTICITY
    let vy2 := vy1 * ELASTICITY
    { particle with
      x := px
      y := py
      oldx := px - vx2
      oldy := py - vy2 }
  else particle

/-- The divisor of the two divisions `dx / dist`, `dy / dist` of
`ApplyCircularConstraint` (lines 121-124) when the call executes them, and `none`
when the branch `dist > maxDist` is not taken. -/
def ApplyCircularConstraint_divisor (sqrt : α → α) (particle container : Circle α) :
    Option α :=
  let dx := particle.x - container.x
  let dy := particle.y - container.y
  let dist := sqrt (dx * dx + dy * dy)
  let maxDist := container.radius - particle.radius
  if dist > maxDist then some dist else none

/-- The quantity `dist` computed at the top of `ResolveBallCollision`
(lines 150-153): distance between the two centres. -/
def ballDist (sqrt : α → α) (a b : Circle α) : α :=
  let dx := b.x - a.x
  let dy := b.y - a.y
  sqrt (dx * dx + dy * dy)

/-- `ResolveBallCollision` (n_collision.cpp, lines 147-207); the pair returned is
the new state of `a` and of `b`. -/
def ResolveBallCollision (sqrt : α → α) (a b : Circle α) : Circle α × Circle α :=
  let dx := b.x - a.x
  let dy := b.y - a.y
  let dist := sqrt (dx * dx + dy * dy)
  let minDist := a.radius + b.radius
  if dist ≥ minDist ∨ dist = 0 then (a, b)
  else
    let nx := dx / dist
    let ny := dy / dist
    let overlap := minDist - dist
    let correction := overlap * (1 / 2)
    let ax := a.x - nx * correction
    let ay := a.y - ny * correction
    let bx := b.x + nx * correction
    let byy := b.y + ny * correction
    let avx := ax - a.oldx
    let avy := ay - a.oldy
    let bvx := bx - b.oldx
    let bvy := byy - b.oldy
    let rvx := bvx - avx
    let rvy := bvy - avy
    let velAlongNormal := rvx * nx + rvy * ny
    if velAlongNormal > 0 then
      ({ a with x := ax, y := ay }, { b with x := bx, y := byy })
    else
      let impulse := -(1 + ELASTICITY) * velAlongNormal
      let impulse2 := impulse * (1 / 2)
      let ix := impulse2 * nx
      let iy := impulse2 * ny
      let avx2 := avx - ix
      let avy2 := avy - iy
      let bvx2 := bvx + ix
      let bvy2 := bvy + iy
      ({ a with x := ax, y := ay, oldx := ax - avx2, oldy := ay - avy2 },
       { b with x := bx, y := byy, oldx := bx - bvx2, oldy := byy - bvy2 })

/-- Kinetic energy of a pair inferred from the position deltas:
`|a.position - a.previousPosition|^2 + |b.position - b.previousPosition|^2`. -/
def kinetic (a b : Circle α) : α :=
  (a.x - a.oldx) ^ 2 + (a.y - a.oldy) ^ 2 + ((b.x - b.oldx) ^ 2 + (b.y - b.oldy) ^ 2)

/-- Relative velocity of `b` with respect to `a` along the normal
`n = (b - a) / dist`, inferred from the position deltas as they are before the
call: `((b.pos - b.old) - (a.pos - a.old)) . n`. -/
def relNormalVel (sqrt : α → α) (a b : Circle α) : α :=
  let dx := b.x - a.x
  let dy := b.y - a.y
  let dist := sqrt (dx * dx + dy * dy)
  ((b.x - b.oldx) - (a.x - a.oldx)) * (dx / dist) +
    ((b.y - b.oldy) - (a.y - a.oldy)) * (dy / dist)

/-- The collision normal `(nx, ny)` of `ResolveBallCollision` (lines 150-162). -/
def collisionNormal (sqrt : α → α) (a b : Circle α) : α × α :=
  let dx := b.x - a.x
  let dy := b.y - a.y
  let dist := sqrt (dx * dx + dy * dy)
  (dx / dist, dy / dist)

/-- The velocity `(avx, avy)` that `ResolveBallCollision` infers for `a` at lines
174-175, after the positional correction of lines 165-169. -/
def correctedVelA (sqrt : α → α) (a b : Circle α) : α × α :=
  let dx := b.x - a.x
  let dy := b.y - a.y
  let dist := sqrt (dx * dx + dy * dy)
  let minDist := a.radius + b.radius
  let nx := dx / dist
  let ny := dy / dist
  let overlap := minDist - dist
  let correction := overlap * (1 / 2)
  let ax := a.x - nx * correction
  let ay := a.y - ny * correction
  (ax - a.oldx, ay - a.oldy)

/-- The velocity `(bvx, bvy)` that `ResolveBallCollision` infers for `b` at lines
176-177, after the positional correction of lines 165-171. -/
def correctedVelB (sqrt : α → α) (a b : Circle α) : α × α :=
  let dx := b.x - a.x
  let dy := b.y - a.y
  let dist := sqrt (dx * dx + dy * dy)
  let minDist := a.radius + b.radius
  let nx := dx / dist
  let ny := dy / dist
  let overlap := minDist - dist
  let correction := overlap * (1 / 2)
  let bx := b.x + nx * correction
  let byy := b.y + ny * correction
  (bx - b.oldx, byy - b.oldy)

/-- The quantity `velAlongNormal` of line 184: relative velocity along the normal,
computed from the positions after the positional correction. -/
def velAlongNormal (sqrt : α → α) (a b : Circle α) : α :=
  let n := collisionNormal sqrt a b
  let av := correctedVelA sqrt a b
  let bv := correctedVelB sqrt a b
  let rvx := bv.1 - av.1
  let rvy := bv.2 - av.2
  rvx * n.1 + rvy * n.2

end Physics

/-! ## The frame step of `main` in n_collision.cpp (lines 344-358) -/

section Frame

variable {α : Type} [LinearOrderedField α]

/-- The call `ResolveBallCollision(balls[i], balls[j])` of line 354 on the vector:
both elements are read, resolved and written back. -/
def resolveAt (sqrt : α → α) (i j : Nat) (balls : List (Circle α)) : List (Circle α) :=
  match balls[i]?, balls[j]? with
  | some a, some b =>
    let r := ResolveBallCollision sqrt a b
    (balls.set i r.1).set j r.2
  | _, _ => balls

/-- A call `f(balls[i])` with `balls[i]` passed by reference: the element is
read, transformed and written back. -/
def updateAt (f : Circle α → Circle α) (i : Nat) (balls : List (Circle α)) :
    List (Circle α) :=
  match balls[i]? with
  | some c => balls.set i (f c)
  | none => balls

/-- The call `ApplyCircularConstraint(balls[i], container)` of line 356 on the vector. -/
def constrainAt (sqrt : α → α) (container : Circle α) (i : Nat) (balls : List (Circle α)) :
    List (Circle α) :=
  updateAt (fun p => ApplyCircularConstraint sqrt p container) i balls

/-- The inner loop `for (int j = i + 1; j < balls.size(); j++)` of lines 353-355. -/
def pairLoop (sqrt : α → α) (i : Nat) (balls : List (Circle α)) : List (Circle α) :=
  (List.range' (i + 1) (balls.length - (i + 1))).foldl
    (fun bs j => resolveAt sqrt i j bs) balls

/-- One pass of the loop `for (int i = 0; i < balls.size(); i++)` of lines 352-357:
for each `i`, the inner pair loop and then the constraint on `balls[i]`. -/
def substep (sqrt : α → α) (container : Circle α) (balls : List (Circle α)) :
    List (Circle α) :=
  (List.range balls.length).foldl
    (fun bs i => constrainAt sqrt container i (pairLoop sqrt i bs)) balls

/-- The loop of lines 344-346: `UpdateCircle(balls[i])` for every index. -/
def updateAll (balls : List (Circle α)) : List (Circle α) :=
  (List.range balls.length).foldl (fun bs i => updateAt UpdateCircle i bs) balls

/-- The physics of one frame (lines 344-358): update every ball, then
`SUBSTEP_COUNT` passes of the collision/constraint loop. -/
def frameStep (sqrt : α → α) (container : Circle α) (balls : List (Circle α)) :
    List (Circle α) :=
  (substep sqrt container)^[SUBSTEP_COUNT] (updateAll balls)

/-! ### The single-particle scenario -/

/-- The container of `main` (lines 228-231): centre (300,300), radius 250. The
fields that `main` does not set are never read by the physics. -/
def scenarioContainer : Circle α := ⟨300, 300, 0, 0, 250, 0⟩

/-- The particle of the scenario: at rest at (300,100), radius 40. -/
def scenarioBall : Circle α := ⟨300, 100, 300, 100, 40, 0⟩

/-- The particle list of the scenario after `k` frame steps. -/
def scenarioAfter (sqrt : α → α) (k : Nat) : List (Circle α) :=
  (frameStep sqrt scenarioContainer)^[k] [scenarioBall]

/-! ### The mouse-button handler of `main` (lines 274-309) -/

/-- `#define COLOR_WHITE 0xffffffff`. -/
def COLOR_WHITE : Nat := 0xffffffff

/-- The hit test of lines 279-282: the click `(mx, my)` lies strictly inside the
disc of the ball. -/
def clickHits (mx my : Int) (ball : Circle α) : Bool :=
  let dx := ball.x - (mx : α)
  let dy := ball.y - (my : α)
  let dist2 := dx * dx + dy * dy
  decide (dist2 < ball.radius * ball.radius)

/-- The search loop of lines 278-291: the first ball hit by the click is erased
and the loop is left; `none` when no ball is hit (`BALL_CLICKED == 0`). -/
def eraseFirstHit (mx my : Int) : List (Circle α) → Option (List (Circle α))
  | [] => none
  | ball :: rest =>
    if clickHits mx my ball then some rest
    else (eraseFirstHit mx my rest).map fun l => ball :: l

/-- The ball created at lines 294-302, with the given radius. -/
def newBallAt (mx my : Int) (radius : α) : Circle α :=
  { x := (mx : α), y := (my : α), oldx := (mx : α), oldy := (my : α),
    radius := radius, color := 0xffffffff }

/-- The `SDL_MOUSEBUTTONDOWN` handler with the radius of a possible new ball as a
parameter: erase the first ball hit, or else append a new ball at the click. -/
def mouseDownRadius (radius : α) (mx my : Int) (balls : List (Circle α)) :
    List (Circle α) :=
  match eraseFirstHit mx my balls with
  | some remaining => remaining
  | none => balls ++ [newBallAt mx my radius]

/-- The `SDL_MOUSEBUTTONDOWN` handler of lines 274-309; `rnd` is the value that
`rand()` returns, so the new radius is `10 + (rand() % 10)`. -/
def mouseDown (rnd : Nat) (mx my : Int) (balls : List (Circle α)) : List (Circle α) :=
  mouseDownRadius (((10 + rnd % 10 : Nat) : α)) mx my balls

/-! ### The schedule as the specification words it -/

/-- Every unordered pair `(i, j)` with `i < j` of indices below `n`, in
lexicographic order. -/
def allPairs (n : Nat) : List (Nat × Nat) :=
  (List.range n).flatMap fun i => (List.range' (i + 1) (n - (i + 1))).map fun j => (i, j)

/-- One substep as specified: `ResolveCollision` on every unordered pair, then,
after all pairs, `ApplyBoundary` on every particle. -/
def specSubstep (sqrt : α → α) (container : Circle α) (balls : List (Circle α)) :
    List (Circle α) :=
  ((allPairs balls.length).foldl (fun bs p => resolveAt sqrt p.1 p.2 bs) balls).map
    fun p => ApplyCircularConstraint sqrt p container

/-- The step as specified: integrate every particle once, then `SUBSTEP_COUNT`
specified substeps. -/
def specStep (sqrt : α → α) (container : Circle α) (balls : List (Circle α)) :
    List (Circle α) :=
  (specSubstep sqrt container)^[SUBSTEP_COUNT] (balls.map UpdateCircle)

end Frame

/-! ## The two single-ball files -/

/-! ### The file with the four straight walls and the explicit `dt`
(`src/boundedness/bounded.cpp`; window title "Gravity Simulation") -/

namespace Walls

/-- `struct Circle` of the four-wall file (no colour field). -/
structure Circle (α : Type) where
  x : α
  y : α
  oldx : α
  oldy : α
  radius : α

/-- `UpdateCircle` of the four-wall file (lines 39-57), with `double dt = 1.0`. -/
def UpdateCircle {α : Type} [LinearOrderedField α] (circle : Circle α) : Circle α :=
  let dt : α := 1
  let vx := circle.x - circle.oldx
  let vy := circle.y - circle.oldy
  { circle with
    oldx := circle.x
    oldy := circle.y
    x := circle.x + vx
    y := circle.y + (vy + GRAVITY * dt * dt) }

/-- `#define WIDTH 600`. -/
def WIDTH {α : Type} [LinearOrderedField α] : α := 600

/-- `#define HEIGHT 600`. -/
def HEIGHT {α : Type} [LinearOrderedField α] : α := 600

/-- `ApplyConstraints` of the four-wall file (lines 59-94): the four wall tests
run one after the other on the circle as updated so far; `vx`, `vy` are taken once
at the top. -/
def ApplyConstraints {α : Type} [LinearOrderedField α] (circle : Circle α) : Circle α :=
  let vx := circle.x - circle.oldx
  let vy := circle.y - circle.oldy
  let c1 : Circle α :=
    if circle.x < circle.radius then
      { circle with x := circle.radius, oldx := circle.radius + vx * ELASTICITY }
    else circle
  let c2 : Circle α :=
    if c1.x > WIDTH - c1.radius then
      { c1 with x := WIDTH - c1.radius, oldx := WIDTH - c1.radius + vx * ELASTICITY }
    else c1
  let c3 : Circle α :=
    if c2.y < c2.radius then
      { c2 with y := c2.radius, oldy := c2.radius + vy * ELASTICITY }
    else c2
  let c4 : Circle α :=
    if c3.y > HEIGHT - c3.radius then
      { c3 with y := HEIGHT - c3.radius, oldy := HEIGHT - c3.radius + vy * ELASTICITY }
    else c3
  c4

end Walls

/-! ### The file with one ball in the circular container
(`src/gravity.cpp`; window title "Verlet Circle Constraint", 4-iteration loop) -/

namespace Bounded

/-- `struct Circle` of the single-ball file (no colour field). -/
structure Circle (α : Type) where
  x : α
  y : α
  oldx : α
  oldy : α
  radius : α

/-- `UpdateCircle` of the single-ball file (lines 73-85). -/
def UpdateCircle {α : Type} [LinearOrderedField α] (c : Circle α) : Circle α :=
  let vx := c.x - c.oldx
  let vy := c.y - c.oldy
  { c with
    oldx := c.x
    oldy := c.y
    x := c.x + vx
    y := c.y + (vy + GRAVITY) }

end Bounded

/-- The geometric fields of an n_collision circle, as a four-wall-file circle. -/
def Circle.toWalls {α : Type} (c : Circle α) : Walls.Circle α :=
  { x := c.x, y := c.y, oldx := c.oldx, oldy := c.oldy, radius := c.radius }

/-- The geometric fields of an n_collision circle, as a single-ball-file circle. -/
def Circle.toBounded {α : Type} (c : Circle α) : Bounded.Circle α :=
  { x := c.x, y := c.y, oldx := c.oldx, oldy := c.oldy, radius := c.radius }

/-! ## Auxiliary facts -/

/-- The collision/boundary normal `(dx / dist, dy / dist)` has unit length when
`dist = sqrt (dx*dx + dy*dy)` is not zero. -/
theorem normal_unit (dx dy : ℝ) (h : Real.sqrt (dx * dx + dy * dy) ≠ 0) :
    dx / Real.sqrt (dx * dx + dy * dy) * (dx / Real.sqrt (dx * dx + dy * dy)) +
      dy / Real.sqrt (dx * dx + dy * dy) * (dy / Real.sqrt (dx * dx + dy * dy)) = 1 := by
  have hnn : 0 ≤ dx * dx + dy * dy := add_nonneg (mul_self_nonneg dx) (mul_self_nonneg dy)
  have hsq := Real.mul_self_sqrt hnn
  rw [div_mul_div_comm, div_mul_div_comm, ← add_div, hsq]
  have hne : dx * dx + dy * dy ≠ 0 := by
    intro h0
    apply h
    rw [h0, Real.sqrt_zero]
  exact div_self hne

/-- A vector `m * n` with `n` the unit normal and `m ≥ 0` has length `m`. -/
theorem sqrt_scaled_normal (dx dy m : ℝ) (h : Real.sqrt (dx * dx + dy * dy) ≠ 0)
    (hm : 0 ≤ m) :
    Real.sqrt (dx / Real.sqrt (dx * dx + dy * dy) * m *
        (dx / Real.sqrt (dx * dx + dy * dy) * m) +
      dy / Real.sqrt (dx * dx + dy * dy) * m *
        (dy / Real.sqrt (dx * dx + dy * dy) * m)) = m := by
  have hu := normal_unit dx dy h
  have e : dx / Real.sqrt (dx * dx + dy * dy) * m *
        (dx / Real.sqrt (dx * dx + dy * dy) * m) +
      dy / Real.sqrt (dx * dx + dy * dy) * m *
        (dy / Real.sqrt (dx * dx + dy * dy) * m) = m * m := by
    linear_combination (m * m) * hu
  rw [e, Real.sqrt_mul_self hm]

/-- Energy after the positional correction alone: pushing `a` by `-c n` and `b`
by `+c n` with `n` a unit vector changes the sum of squared velocities by
`2 c (vn + c)`, which is not positive when `vn ≤ -c` and `c > 0`. -/
theorem energy_after_correction (avx avy bvx bvy nx ny c : ℝ)
    (hu : nx * nx + ny * ny = 1) (hc : 0 < c)
    (hv : (bvx - avx) * nx + (bvy - avy) * ny ≤ -c) :
    (avx - nx * c) ^ 2 + (avy - ny * c) ^ 2 + ((bvx + nx * c) ^ 2 + (bvy + ny * c) ^ 2)
      ≤ avx ^ 2 + avy ^ 2 + (bvx ^ 2 + bvy ^ 2) := by
  have e : (avx - nx * c) ^ 2 + (avy - ny * c) ^ 2 +
      ((bvx + nx * c) ^ 2 + (bvy + ny * c) ^ 2) =
      avx ^ 2 + avy ^ 2 + (bvx ^ 2 + bvy ^ 2) +
        2 * c * (((bvx - avx) * nx + (bvy - avy) * ny) + c) := by
    linear_combination (2 * c * c) * hu
  rw [e]
  have : c * (((bvx - avx) * nx + (bvy - avy) * ny) + c) ≤ 0 :=
    mul_nonpos_of_nonneg_of_nonpos hc.le (by linarith)
  linarith

/-- Energy across the impulse: with `j = -(1 + 9/10) * vn / 2` the
velocities `u - j n`, `w + j n` (`n` a unit vector, `vn = (w - u) . n`) have a sum
of squares at most that of `u`, `w`. -/
theorem energy_after_impulse (ux uy wx wy nx ny : ℝ)
    (hu : nx * nx + ny * ny = 1) :
    (ux - -(1 + 9 / 10) * ((wx - ux) * nx + (wy - uy) * ny) * (1 / 2) * nx) ^ 2 +
      (uy - -(1 + 9 / 10) * ((wx - ux) * nx + (wy - uy) * ny) * (1 / 2) * ny) ^ 2 +
      ((wx + -(1 + 9 / 10) * ((wx - ux) * nx + (wy - uy) * ny) * (1 / 2) * nx) ^ 2 +
       (wy + -(1 + 9 / 10) * ((wx - ux) * nx + (wy - uy) * ny) * (1 / 2) * ny) ^ 2)
      ≤ ux ^ 2 + uy ^ 2 + (wx ^ 2 + wy ^ 2) := by
  have e : (ux - -(1 + 9 / 10) * ((wx - ux) * nx + (wy - uy) * ny) * (1 / 2) * nx) ^ 2 +
      (uy - -(1 + 9 / 10) * ((wx - ux) * nx + (wy - uy) * ny) * (1 / 2) * ny) ^ 2 +
      ((wx + -(1 + 9 / 10) * ((wx - ux) * nx + (wy - uy) * ny) * (1 / 2) * nx) ^ 2 +
       (wy + -(1 + 9 / 10) * ((wx - ux) * nx + (wy - uy) * ny) * (1 / 2) * ny) ^ 2) =
      ux ^ 2 + uy ^ 2 + (wx ^ 2 + wy ^ 2) -
        19 / 200 * ((wx - ux) * nx + (wy - uy) * ny) ^ 2 := by
    linear_combination
      (2 * (19 / 20 * ((wx - ux) * nx + (wy - uy) * ny)) ^ 2) * hu
  rw [e]
  have := sq_nonneg ((wx - ux) * nx + (wy - uy) * ny)
  linarith

/-! ## Theorems -/

/-- C3. Collision no-op: when the centre distance is at least the sum of the radii,
or is zero, `ResolveBallCollision` returns both circles unchanged in every field. -/
theorem resolve_noop (a b : Circle ℝ)
    (h : ballDist Real.sqrt a b ≥ a.radius + b.radius ∨ ballDist Real.sqrt a b = 0) :
    ResolveBallCollision Real.sqrt a b = (a, b) := by
  unfold ballDist at h
  unfold ResolveBallCollision
  simp only []
  rw [if_pos h]

/-- C8. Verlet step: `UpdateCircle` stores the old position, sets
`x' = x + (x - oldx) = 2x - oldx` and `y' = y + (y - oldy) + GRAVITY * dt^2 =
2y - oldy + 1/2` with `GRAVITY = 1/2`, `dt = 1`; gravity leaves `x'` alone and
makes `y'` strictly larger; radius and colour are kept; the three file variants
agree on the geometric fields. -/
theorem updateCircle_verlet (c : Circle ℝ) :
    (UpdateCircle c).oldx = c.x ∧ (UpdateCircle c).oldy = c.y ∧
    (UpdateCircle c).x = c.x + (c.x - c.oldx) ∧
    (UpdateCircle c).y = c.y + (c.y - c.oldy) + GRAVITY * 1 ^ 2 ∧
    (GRAVITY : ℝ) = 1 / 2 ∧
    (UpdateCircle c).x = 2 * c.x - c.oldx ∧
    (UpdateCircle c).y = 2 * c.y - c.oldy + 1 / 2 ∧
    (UpdateCircle c).y > c.y + (c.y - c.oldy) ∧
    (UpdateCircle c).radius = c.radius ∧ (UpdateCircle c).color = c.color ∧
    Walls.UpdateCircle c.toWalls = (UpdateCircle c).toWalls ∧
    Bounded.UpdateCircle c.toBounded = (UpdateCircle c).toBounded := by
  refine ⟨rfl, rfl, rfl, ?_, rfl, ?_, ?_, ?_, rfl, rfl, ?_, rfl⟩
  · show c.y + (c.y - c.oldy + GRAVITY) = c.y + (c.y - c.oldy) + GRAVITY * 1 ^ 2
    ring
  · show c.x + (c.x - c.oldx) = 2 * c.x - c.oldx
    ring
  · show c.y + (c.y - c.oldy + 1 / 2) = 2 * c.y - c.oldy + 1 / 2
    ring
  · show c.y + (c.y - c.oldy + 1 / 2) > c.y + (c.y - c.oldy)
    linarith
  · simp [UpdateCircle, Walls.UpdateCircle, Circle.toWalls]

/-- C2 (counterexample). A particle of radius 2 at (3, 4) in a container of
radius 1 centred at the origin: both radii are positive, no division by zero
occurs (`dist = 5`), and after `ApplyCircularConstraint` the centre distance is
not at most `container.radius - particle.radius`. -/
theorem constraint_post_fails :
    ¬ (centreDist Real.sqrt
          (ApplyCircularConstraint Real.sqrt ⟨3, 4, 3, 4, 2, 0⟩ ⟨0, 0, 0, 0, 1, 0⟩)
          ⟨0, 0, 0, 0, 1, 0⟩
        ≤ (⟨0, 0, 0, 0, 1, 0⟩ : Circle ℝ).radius -
          (ApplyCircularConstraint Real.sqrt ⟨3, 4, 3, 4, 2, 0⟩ ⟨0, 0, 0, 0, 1, 0⟩).radius) := by
  have h5 : Real.sqrt (3 * 3 + 4 * 4) = 5 := by
    rw [show (3 : ℝ) * 3 + 4 * 4 = 5 * 5 by norm_num]
    exact Real.sqrt_mul_self (by norm_num)
  have hnn := Real.sqrt_nonneg
    ((0 + 3 / 5 * (1 - 2) - 0) * (0 + 3 / 5 * (1 - 2) - 0) +
      (0 + 4 / 5 * (1 - 2) - 0) * (0 + 4 / 5 * (1 - 2) - 0))
  simp only [centreDist, ApplyCircularConstraint, sub_zero, h5]
  rw [if_pos (by norm_num)]
  simp only []
  intro h
  linarith

/-- C2 (amended). When the particle's radius is at most the container's radius,
after `ApplyCircularConstraint` the distance from the container centre to the
particle is at most `container.radius - particle.radius`. -/
theorem constraint_post (particle container : Circle ℝ)
    (_hp : 0 < particle.radius) (_hc : 0 < container.radius)
    (h : particle.radius ≤ container.radius) :
    centreDist Real.sqrt (ApplyCircularConstraint Real.sqrt particle container) container
      ≤ container.radius -
        (ApplyCircularConstraint Real.sqrt particle container).radius := by
  unfold centreDist ApplyCircularConstraint
  simp only []
  split_ifs with hd
  · simp only [add_sub_cancel_left]
    have hm : 0 ≤ container.radius - particle.radius := by linarith
    have hne : Real.sqrt ((particle.x - container.x) * (particle.x - container.x) +
        (particle.y - container.y) * (particle.y - container.y)) ≠ 0 :=
      (lt_of_le_of_lt hm hd).ne.symm
    rw [sqrt_scaled_normal _ _ _ hne hm]
  · exact not_lt.mp hd

/-- C2 (amended), at a concrete input: radius 40 in the container of radius 250. -/
theorem constraint_post_witness :
    centreDist Real.sqrt
        (ApplyCircularConstraint Real.sqrt ⟨300, 600, 300, 590, 40, 0⟩
          ⟨300, 300, 0, 0, 250, 0⟩) ⟨300, 300, 0, 0, 250, 0⟩
      ≤ (⟨300, 300, 0, 0, 250, 0⟩ : Circle ℝ).radius -
        (ApplyCircularConstraint Real.sqrt ⟨300, 600, 300, 590, 40, 0⟩
          ⟨300, 300, 0, 0, 250, 0⟩).radius :=
  constraint_post ⟨300, 600, 300, 590, 40, 0⟩ ⟨300, 300, 0, 0, 250, 0⟩
    (by norm_num) (by norm_num) (by norm_num)

/-- C4. Positional correction: for an overlapping pair (`0 < dist < a.radius +
b.radius`), after `ResolveBallCollision` each position has moved by half the
overlap along the unit normal `n = (b - a) / dist` (`a` against `n`, `b` along
`n`), the distance between the new positions is exactly `a.radius + b.radius`,
and the midpoint of the two positions is unchanged. -/
theorem resolve_restores_contact (a b : Circle ℝ)
    (h0 : 0 < ballDist Real.sqrt a b)
    (h1 : ballDist Real.sqrt a b < a.radius + b.radius) :
    (ResolveBallCollision Real.sqrt a b).1.x =
        a.x - (b.x - a.x) / ballDist Real.sqrt a b *
          ((a.radius + b.radius - ballDist Real.sqrt a b) / 2) ∧
    (ResolveBallCollision Real.sqrt a b).1.y =
        a.y - (b.y - a.y) / ballDist Real.sqrt a b *
          ((a.radius + b.radius - ballDist Real.sqrt a b) / 2) ∧
    (ResolveBallCollision Real.sqrt a b).2.x =
        b.x + (b.x - a.x) / ballDist Real.sqrt a b *
          ((a.radius + b.radius - ballDist Real.sqrt a b) / 2) ∧
    (ResolveBallCollision Real.sqrt a b).2.y =
        b.y + (b.y - a.y) / ballDist Real.sqrt a b *
          ((a.radius + b.radius - ballDist Real.sqrt a b) / 2) ∧
    ballDist Real.sqrt (ResolveBallCollision Real.sqrt a b).1
        (ResolveBallCollision Real.sqrt a b).2 = a.radius + b.radius ∧
    ((ResolveBallCollision Real.sqrt a b).1.x + (ResolveBallCollision Real.sqrt a b).2.x) / 2
      = (a.x + b.x) / 2 ∧
    ((ResolveBallCollision Real.sqrt a b).1.y + (ResolveBallCollision Real.sqrt a b).2.y) / 2
      = (a.y + b.y) / 2 := by
  unfold ballDist at h0 h1 ⊢
  simp only [] at h0 h1 ⊢
  have hne := h0.ne.symm
  have hm : 0 ≤ a.radius + b.radius := le_of_lt (lt_trans h0 h1)
  have hs := sqrt_scaled_normal (b.x - a.x) (b.y - a.y) (a.radius + b.radius) hne hm
  have hu := normal_unit (b.x - a.x) (b.y - a.y) hne
  have hcond : ¬ (Real.sqrt ((b.x - a.x) * (b.x - a.x) + (b.y - a.y) * (b.y - a.y))
      ≥ a.radius + b.radius ∨
      Real.sqrt ((b.x - a.x) * (b.x - a.x) + (b.y - a.y) * (b.y - a.y)) = 0) := by
    rintro (h | h)
    · exact absurd h1 (not_lt.mpr h)
    · exact hne h
  unfold ResolveBallCollision
  simp only []
  rw [if_neg hcond]
  set d := Real.sqrt ((b.x - a.x) * (b.x - a.x) + (b.y - a.y) * (b.y - a.y)) with hd
  have key : ∀ r : Circle ℝ × Circle ℝ,
      r.1.x = a.x - (b.x - a.x) / d * ((a.radius + b.radius - d) * (1 / 2)) →
      r.1.y = a.y - (b.y - a.y) / d * ((a.radius + b.radius - d) * (1 / 2)) →
      r.2.x = b.x + (b.x - a.x) / d * ((a.radius + b.radius - d) * (1 / 2)) →
      r.2.y = b.y + (b.y - a.y) / d * ((a.radius + b.radius - d) * (1 / 2)) →
      r.1.x = a.x - (b.x - a.x) / d * ((a.radius + b.radius - d) / 2) ∧
      r.1.y = a.y - (b.y - a.y) / d * ((a.radius + b.radius - d) / 2) ∧
      r.2.x = b.x + (b.x - a.x) / d * ((a.radius + b.radius - d) / 2) ∧
      r.2.y = b.y + (b.y - a.y) / d * ((a.radius + b.radius - d) / 2) ∧
      Real.sqrt ((r.2.x - r.1.x) * (r.2.x - r.1.x) + (r.2.y - r.1.y) * (r.2.y - r.1.y))
        = a.radius + b.radius ∧
      (r.1.x + r.2.x) / 2 = (a.x + b.x) / 2 ∧ (r.1.y + r.2.y) / 2 = (a.y + b.y) / 2 := by
    intro r e1 e2 e3 e4
    have ex : r.2.x - r.1.x = (b.x - a.x) / d * (a.radius + b.radius) := by
      rw [e1, e3]
      field_simp
      ring
    have ey : r.2.y - r.1.y = (b.y - a.y) / d * (a.radius + b.radius) := by
      rw [e2, e4]
      field_simp
      ring
    refine ⟨by rw [e1]; ring, by rw [e2]; ring, by rw [e3]; ring, by rw [e4]; ring, ?_,
      by rw [e1, e3]; ring, by rw [e2, e4]; ring⟩
    rw [ex, ey]
    exact hs
  split_ifs
  · exact key _ rfl rfl rfl rfl
  · exact key _ rfl rfl rfl rfl

/-- C4, at a concrete input: unit circles with centres (0,0) and (1,0). -/
theorem resolve_restores_contact_witness :
    ballDist Real.sqrt
        (ResolveBallCollision Real.sqrt ⟨0, 0, 0, 0, 1, 0⟩ ⟨1, 0, 1, 0, 1, 0⟩).1
        (ResolveBallCollision Real.sqrt ⟨0, 0, 0, 0, 1, 0⟩ ⟨1, 0, 1, 0, 1, 0⟩).2
      = (⟨0, 0, 0, 0, 1, 0⟩ : Circle ℝ).radius + (⟨1, 0, 1, 0, 1, 0⟩ : Circle ℝ).radius :=
  (resolve_restores_contact ⟨0, 0, 0, 0, 1, 0⟩ ⟨1, 0, 1, 0, 1, 0⟩
    (by simp [ballDist]) (by simp [ballDist])).2.2.2.2.1

/-- C5 (counterexample). Two unit circles at rest with centres (0,0) and (1,0):
the centres are distinct, the circles overlap, both inferred velocities are zero,
and after `ResolveBallCollision` the inferred velocity of `a` is `(-1/2, 0)` and
that of `b` is `(1/2, 0)`. -/
theorem rest_not_preserved :
    ((⟨0, 0, 0, 0, 1, 0⟩ : Circle ℝ).x ≠ (⟨1, 0, 1, 0, 1, 0⟩ : Circle ℝ).x ∨
      (⟨0, 0, 0, 0, 1, 0⟩ : Circle ℝ).y ≠ (⟨1, 0, 1, 0, 1, 0⟩ : Circle ℝ).y) ∧
    ballDist Real.sqrt ⟨0, 0, 0, 0, 1, 0⟩ ⟨1, 0, 1, 0, 1, 0⟩
      < (⟨0, 0, 0, 0, 1, 0⟩ : Circle ℝ).radius + (⟨1, 0, 1, 0, 1, 0⟩ : Circle ℝ).radius ∧
    (⟨0, 0, 0, 0, 1, 0⟩ : Circle ℝ).x - (⟨0, 0, 0, 0, 1, 0⟩ : Circle ℝ).oldx = 0 ∧
    (⟨0, 0, 0, 0, 1, 0⟩ : Circle ℝ).y - (⟨0, 0, 0, 0, 1, 0⟩ : Circle ℝ).oldy = 0 ∧
    (⟨1, 0, 1, 0, 1, 0⟩ : Circle ℝ).x - (⟨1, 0, 1, 0, 1, 0⟩ : Circle ℝ).oldx = 0 ∧
    (⟨1, 0, 1, 0, 1, 0⟩ : Circle ℝ).y - (⟨1, 0, 1, 0, 1, 0⟩ : Circle ℝ).oldy = 0 ∧
    (ResolveBallCollision Real.sqrt ⟨0, 0, 0, 0, 1, 0⟩ ⟨1, 0, 1, 0, 1, 0⟩).1.x -
      (ResolveBallCollision Real.sqrt ⟨0, 0, 0, 0, 1, 0⟩ ⟨1, 0, 1, 0, 1, 0⟩).1.oldx
        = -(1 / 2) ∧
    (ResolveBallCollision Real.sqrt ⟨0, 0, 0, 0, 1, 0⟩ ⟨1, 0, 1, 0, 1, 0⟩).2.x -
      (ResolveBallCollision Real.sqrt ⟨0, 0, 0, 0, 1, 0⟩ ⟨1, 0, 1, 0, 1, 0⟩).2.oldx
        = 1 / 2 := by
  have e : ResolveBallCollision Real.sqrt ⟨0, 0, 0, 0, 1, 0⟩ ⟨1, 0, 1, 0, 1, 0⟩ =
      ((⟨-(1 / 2), 0, 0, 0, 1, 0⟩ : Circle ℝ), (⟨3 / 2, 0, 1, 0, 1, 0⟩ : Circle ℝ)) := by
    simp only [ResolveBallCollision, sub_zero, mul_zero, add_zero, mul_one, Real.sqrt_one,
      div_one, zero_div, zero_mul, sub_self]
    norm_num
  rw [e]
  simp only [ballDist, sub_zero, mul_zero, add_zero, mul_one, Real.sqrt_one]
  norm_num

/-- C5 (amended). For an overlapping pair with distinct centres whose two
circles are at rest, `ResolveBallCollision` leaves both previous positions
unchanged and moves each position by half the overlap along the normal, so the
inferred velocities become `-(overlap/2) * n` for `a` and `+(overlap/2) * n` for
`b`, with `overlap/2 > 0` and `n` of unit length. -/
theorem rest_gets_separation_velocity (a b : Circle ℝ)
    (hc : a.x ≠ b.x ∨ a.y ≠ b.y)
    (h1 : ballDist Real.sqrt a b < a.radius + b.radius)
    (hax : a.x - a.oldx = 0) (hay : a.y - a.oldy = 0)
    (hbx : b.x - b.oldx = 0) (hby : b.y - b.oldy = 0) :
    (ResolveBallCollision Real.sqrt a b).1.oldx = a.oldx ∧
    (ResolveBallCollision Real.sqrt a b).1.oldy = a.oldy ∧
    (ResolveBallCollision Real.sqrt a b).2.oldx = b.oldx ∧
    (ResolveBallCollision Real.sqrt a b).2.oldy = b.oldy ∧
    (ResolveBallCollision Real.sqrt a b).1.x - (ResolveBallCollision Real.sqrt a b).1.oldx =
      -((a.radius + b.radius - ballDist Real.sqrt a b) / 2 *
        ((b.x - a.x) / ballDist Real.sqrt a b)) ∧
    (ResolveBallCollision Real.sqrt a b).1.y - (ResolveBallCollision Real.sqrt a b).1.oldy =
      -((a.radius + b.radius - ballDist Real.sqrt a b) / 2 *
        ((b.y - a.y) / ballDist Real.sqrt a b)) ∧
    (ResolveBallCollision Real.sqrt a b).2.x - (ResolveBallCollision Real.sqrt a b).2.oldx =
      (a.radius + b.radius - ballDist Real.sqrt a b) / 2 *
        ((b.x - a.x) / ballDist Real.sqrt a b) ∧
    (ResolveBallCollision Real.sqrt a b).2.y - (ResolveBallCollision Real.sqrt a b).2.oldy =
      (a.radius + b.radius - ballDist Real.sqrt a b) / 2 *
        ((b.y - a.y) / ballDist Real.sqrt a b) ∧
    0 < (a.radius + b.radius - ballDist Real.sqrt a b) / 2 ∧
    (b.x - a.x) / ballDist Real.sqrt a b * ((b.x - a.x) / ballDist Real.sqrt a b) +
      (b.y - a.y) / ballDist Real.sqrt a b * ((b.y - a.y) / ballDist Real.sqrt a b) = 1 := by
  unfold ballDist at h1 ⊢
  simp only [] at h1 ⊢
  have hpos : 0 < (b.x - a.x) * (b.x - a.x) + (b.y - a.y) * (b.y - a.y) := by
    rcases hc with h | h
    · have : b.x - a.x ≠ 0 := sub_ne_zero.mpr (Ne.symm h)
      have := mul_self_pos.mpr this
      have := mul_self_nonneg (b.y - a.y)
      linarith
    · have : b.y - a.y ≠ 0 := sub_ne_zero.mpr (Ne.symm h)
      have := mul_self_pos.mpr this
      have := mul_self_nonneg (b.x - a.x)
      linarith
  have h0 : 0 < Real.sqrt ((b.x - a.x) * (b.x - a.x) + (b.y - a.y) * (b.y - a.y)) :=
    Real.sqrt_pos.mpr hpos
  have hne := h0.ne.symm
  have hu := normal_unit (b.x - a.x) (b.y - a.y) hne
  have hcond : ¬ (Real.sqrt ((b.x - a.x) * (b.x - a.x) + (b.y - a.y) * (b.y - a.y))
      ≥ a.radius + b.radius ∨
      Real.sqrt ((b.x - a.x) * (b.x - a.x) + (b.y - a.y) * (b.y - a.y)) = 0) := by
    rintro (h | h)
    · exact absurd h1 (not_lt.mpr h)
    · exact hne h
  have hoa : a.oldx = a.x := by linarith
  have hob : b.oldx = b.x := by linarith
  have hoa2 : a.oldy = a.y := by linarith
  have hob2 : b.oldy = b.y := by linarith
  unfold ResolveBallCollision
  simp only []
  rw [if_neg hcond]
  set d := Real.sqrt ((b.x - a.x) * (b.x - a.x) + (b.y - a.y) * (b.y - a.y)) with hd
  have hov : 0 < a.radius + b.radius - d := by linarith
  have hvn : (b.x + (b.x - a.x) / d * ((a.radius + b.radius - d) * (1 / 2)) - b.oldx -
        (a.x - (b.x - a.x) / d * ((a.radius + b.radius - d) * (1 / 2)) - a.oldx)) *
        ((b.x - a.x) / d) +
      (b.y + (b.y - a.y) / d * ((a.radius + b.radius - d) * (1 / 2)) - b.oldy -
        (a.y - (b.y - a.y) / d * ((a.radius + b.radius - d) * (1 / 2)) - a.oldy)) *
        ((b.y - a.y) / d) > 0 := by
    have e : (b.x + (b.x - a.x) / d * ((a.radius + b.radius - d) * (1 / 2)) - b.oldx -
        (a.x - (b.x - a.x) / d * ((a.radius + b.radius - d) * (1 / 2)) - a.oldx)) *
        ((b.x - a.x) / d) +
      (b.y + (b.y - a.y) / d * ((a.radius + b.radius - d) * (1 / 2)) - b.oldy -
        (a.y - (b.y - a.y) / d * ((a.radius + b.radius - d) * (1 / 2)) - a.oldy)) *
        ((b.y - a.y) / d) = a.radius + b.radius - d := by
      rw [hoa, hob, hoa2, hob2]
      linear_combination (a.radius + b.radius - d) * hu
    rw [e]
    exact hov
  rw [if_pos hvn]
  simp only []
  refine ⟨trivial, trivial, trivial, trivial, ?_, ?_, ?_, ?_, by linarith, hu⟩
  · rw [hoa]; ring
  · rw [hoa2]; ring
  · rw [hob]; ring
  · rw [hob2]; ring

/-- C5 (amended), at a concrete input: unit circles at rest at (0,0) and (1,0). -/
theorem rest_gets_separation_velocity_witness :
    (ResolveBallCollision Real.sqrt ⟨0, 0, 0, 0, 1, 0⟩ ⟨1, 0, 1, 0, 1, 0⟩).1.oldx
      = (⟨0, 0, 0, 0, 1, 0⟩ : Circle ℝ).oldx :=
  (rest_gets_separation_velocity ⟨0, 0, 0, 0, 1, 0⟩ ⟨1, 0, 1, 0, 1, 0⟩
    (Or.inl (by norm_num)) (by simp [ballDist]) (by norm_num) (by norm_num)
    (by norm_num) (by norm_num)).1

/-- C6 (counterexample). Two unit circles at rest with centres (0,0) and (1,0):
the inferred kinetic energy is 0 before `ResolveBallCollision` and 1/2 after it. -/
theorem energy_bound_fails :
    ¬ (kinetic (ResolveBallCollision Real.sqrt ⟨0, 0, 0, 0, 1, 0⟩ ⟨1, 0, 1, 0, 1, 0⟩).1
          (ResolveBallCollision Real.sqrt ⟨0, 0, 0, 0, 1, 0⟩ ⟨1, 0, 1, 0, 1, 0⟩).2
        ≤ kinetic (⟨0, 0, 0, 0, 1, 0⟩ : Circle ℝ) ⟨1, 0, 1, 0, 1, 0⟩) := by
  have e : ResolveBallCollision Real.sqrt ⟨0, 0, 0, 0, 1, 0⟩ ⟨1, 0, 1, 0, 1, 0⟩ =
      ((⟨-(1 / 2), 0, 0, 0, 1, 0⟩ : Circle ℝ), (⟨3 / 2, 0, 1, 0, 1, 0⟩ : Circle ℝ)) := by
    simp only [ResolveBallCollision, sub_zero, mul_zero, add_zero, mul_one, Real.sqrt_one,
      div_one, zero_div, zero_mul, sub_self]
    norm_num
  rw [e]
  simp only [kinetic]
  norm_num

/-- C6 (amended). With `ELASTICITY = 9/10`: if, whenever the pair overlaps
(`0 < dist < a.radius + b.radius`), the relative velocity along the normal before
the call is at most `-(overlap / 2)` (the pair closes at least as fast as the
positional correction pushes it apart), then the inferred kinetic energy after
`ResolveBallCollision` is at most its value before the call. -/
theorem resolve_energy_bound (a b : Circle ℝ)
    (h : 0 < ballDist Real.sqrt a b → ballDist Real.sqrt a b < a.radius + b.radius →
      relNormalVel Real.sqrt a b ≤ -((a.radius + b.radius - ballDist Real.sqrt a b) / 2)) :
    kinetic (ResolveBallCollision Real.sqrt a b).1 (ResolveBallCollision Real.sqrt a b).2
      ≤ kinetic a b := by
  unfold ballDist relNormalVel at h
  simp only [] at h
  unfold ResolveBallCollision
  simp only []
  by_cases hcond : Real.sqrt ((b.x - a.x) * (b.x - a.x) + (b.y - a.y) * (b.y - a.y))
      ≥ a.radius + b.radius ∨
      Real.sqrt ((b.x - a.x) * (b.x - a.x) + (b.y - a.y) * (b.y - a.y)) = 0
  · rw [if_pos hcond]
  · rw [if_neg hcond]
    have h1 : Real.sqrt ((b.x - a.x) * (b.x - a.x) + (b.y - a.y) * (b.y - a.y))
        < a.radius + b.radius := by
      by_contra hn
      exact hcond (Or.inl (not_lt.mp hn))
    have h0 : 0 < Real.sqrt ((b.x - a.x) * (b.x - a.x) + (b.y - a.y) * (b.y - a.y)) :=
      lt_of_le_of_ne (Real.sqrt_nonneg _) (fun e => hcond (Or.inr e.symm))
    have hu := normal_unit (b.x - a.x) (b.y - a.y) h0.ne.symm
    have hv := h h0 h1
    clear h hcond
    generalize Real.sqrt ((b.x - a.x) * (b.x - a.x) + (b.y - a.y) * (b.y - a.y)) = d
      at h0 h1 hu hv ⊢
    have hc : 0 < (a.radius + b.radius - d) * (1 / 2) := by linarith
    have hv2 : (b.x - b.oldx - (a.x - a.oldx)) * ((b.x - a.x) / d) +
        (b.y - b.oldy - (a.y - a.oldy)) * ((b.y - a.y) / d)
          ≤ -((a.radius + b.radius - d) * (1 / 2)) := by linarith
    clear hv h0 h1
    generalize (b.x - a.x) / d = nx at hu hv2 ⊢
    generalize (b.y - a.y) / d = ny at hu hv2 ⊢
    generalize (a.radius + b.radius - d) * (1 / 2) = c at hc hv2 ⊢
    have key := energy_after_correction (a.x - a.oldx) (a.y - a.oldy) (b.x - b.oldx)
      (b.y - b.oldy) nx ny c hu hc hv2
    have k1 : (a.x - nx * c - a.oldx) ^ 2 + (a.y - ny * c - a.oldy) ^ 2 +
        ((b.x + nx * c - b.oldx) ^ 2 + (b.y + ny * c - b.oldy) ^ 2) ≤
        (a.x - a.oldx) ^ 2 + (a.y - a.oldy) ^ 2 +
          ((b.x - b.oldx) ^ 2 + (b.y - b.oldy) ^ 2) := by
      have e : (a.x - nx * c - a.oldx) ^ 2 + (a.y - ny * c - a.oldy) ^ 2 +
          ((b.x + nx * c - b.oldx) ^ 2 + (b.y + ny * c - b.oldy) ^ 2) =
          (a.x - a.oldx - nx * c) ^ 2 + (a.y - a.oldy - ny * c) ^ 2 +
          ((b.x - b.oldx + nx * c) ^ 2 + (b.y - b.oldy + ny * c) ^ 2) := by ring
      rw [e]
      exact key
    split_ifs with hsep
    · simp only [kinetic]
      exact k1
    · have key2 := energy_after_impulse (a.x - nx * c - a.oldx) (a.y - ny * c - a.oldy)
        (b.x + nx * c - b.oldx) (b.y + ny * c - b.oldy) nx ny hu
      simp only [kinetic, ELASTICITY, sub_sub_cancel]
      exact le_trans key2 k1

/-- C6 (amended), at a concrete input: unit circles at (0,0) and (1,0) closing
with velocities (1,0) and (-1,0). -/
theorem resolve_energy_bound_witness :
    kinetic (ResolveBallCollision Real.sqrt ⟨0, 0, -1, 0, 1, 0⟩ ⟨1, 0, 2, 0, 1, 0⟩).1
        (ResolveBallCollision Real.sqrt ⟨0, 0, -1, 0, 1, 0⟩ ⟨1, 0, 2, 0, 1, 0⟩).2
      ≤ kinetic (⟨0, 0, -1, 0, 1, 0⟩ : Circle ℝ) ⟨1, 0, 2, 0, 1, 0⟩ :=
  resolve_energy_bound ⟨0, 0, -1, 0, 1, 0⟩ ⟨1, 0, 2, 0, 1, 0⟩ (by
    intro _ _
    simp only [relNormalVel, ballDist, sub_zero, mul_zero, add_zero, mul_one,
      Real.sqrt_one, div_one, sub_self, zero_mul]
    norm_num)

/-- C9 (counterexample). A particle of radius 2 placed exactly at
the centre of a container of radius 1: `dist = 0 > maxDist = -1`, so
`ApplyCircularConstraint` takes the correction branch and divides by
`dist = 0`. -/
theorem constraint_divides_by_zero_at_centre :
    (⟨0, 0, 0, 0, 2, 0⟩ : Circle ℝ).x = (⟨0, 0, 0, 0, 1, 0⟩ : Circle ℝ).x ∧
    (⟨0, 0, 0, 0, 2, 0⟩ : Circle ℝ).y = (⟨0, 0, 0, 0, 1, 0⟩ : Circle ℝ).y ∧
    centreDist Real.sqrt ⟨0, 0, 0, 0, 2, 0⟩ ⟨0, 0, 0, 0, 1, 0⟩ = 0 ∧
    ApplyCircularConstraint_divisor Real.sqrt ⟨0, 0, 0, 0, 2, 0⟩ ⟨0, 0, 0, 0, 1, 0⟩
      = some 0 := by
  simp only [centreDist, ApplyCircularConstraint_divisor, sub_self, mul_zero, add_zero,
    Real.sqrt_zero]
  norm_num

/-- C9 (amended). When the particle's radius is at most the container's radius, a
particle whose position is the container centre makes `ApplyCircularConstraint`
execute no division at all and is returned unchanged: the case is skipped by the
test `dist > maxDist` (`0 > maxDist` is false), the function having no `dist == 0`
test of its own. `ResolveBallCollision` returns two circles with coincident
centres unchanged, through its `dist == 0` test. -/
theorem constraint_centre_skipped (particle container : Circle ℝ)
    (hx : particle.x = container.x) (hy : particle.y = container.y)
    (h : particle.radius ≤ container.radius) :
    ApplyCircularConstraint_divisor Real.sqrt particle container = none ∧
    ApplyCircularConstraint Real.sqrt particle container = particle ∧
    (∀ a b : Circle ℝ, a.x = b.x → a.y = b.y →
      ResolveBallCollision Real.sqrt a b = (a, b)) := by
  have hd : ¬ (Real.sqrt ((particle.x - container.x) * (particle.x - container.x) +
      (particle.y - container.y) * (particle.y - container.y))
        > container.radius - particle.radius) := by
    rw [hx, hy]
    simp only [sub_self, mul_zero, add_zero, Real.sqrt_zero]
    intro hlt
    linarith
  refine ⟨?_, ?_, ?_⟩
  · unfold ApplyCircularConstraint_divisor
    simp only []
    rw [if_neg hd]
  · unfold ApplyCircularConstraint
    simp only []
    rw [if_neg hd]
  · intro a b hab hab2
    have h0 : Real.sqrt ((b.x - a.x) * (b.x - a.x) + (b.y - a.y) * (b.y - a.y)) = 0 := by
      rw [hab, hab2]
      simp only [sub_self, mul_zero, add_zero, Real.sqrt_zero]
    unfold ResolveBallCollision
    simp only []
    rw [if_pos (Or.inr h0)]

/-- C9 (amended), at a concrete input: a ball of radius 40 with velocity (10,0) at
the centre (300,300) of the container of radius 250. -/
theorem constraint_centre_skipped_witness :
    ApplyCircularConstraint Real.sqrt ⟨300, 300, 290, 300, 40, 0⟩ ⟨300, 300, 0, 0, 250, 0⟩
      = (⟨300, 300, 290, 300, 40, 0⟩ : Circle ℝ) :=
  (constraint_centre_skipped ⟨300, 300, 290, 300, 40, 0⟩ ⟨300, 300, 0, 0, 250, 0⟩
    rfl rfl (by norm_num)).2.1

/-- C10. Symmetry: `ResolveBallCollision b a` gives `a` and `b` the same new
states as `ResolveBallCollision a b`. -/
theorem resolve_symmetric (a b : Circle ℝ) :
    (ResolveBallCollision Real.sqrt b a).2 = (ResolveBallCollision Real.sqrt a b).1 ∧
    (ResolveBallCollision Real.sqrt b a).1 = (ResolveBallCollision Real.sqrt a b).2 := by
  have hsq : (a.x - b.x) * (a.x - b.x) + (a.y - b.y) * (a.y - b.y) =
      (b.x - a.x) * (b.x - a.x) + (b.y - a.y) * (b.y - a.y) := by ring
  have hr : b.radius + a.radius = a.radius + b.radius := add_comm _ _
  unfold ResolveBallCollision
  simp only [hsq, hr]
  set d := Real.sqrt ((b.x - a.x) * (b.x - a.x) + (b.y - a.y) * (b.y - a.y)) with hd
  by_cases hcond : d ≥ a.radius + b.radius ∨ d = 0
  · rw [if_pos hcond, if_pos hcond]
    exact ⟨rfl, rfl⟩
  · rw [if_neg hcond, if_neg hcond]
    have hvn : (a.x + (a.x - b.x) / d * ((a.radius + b.radius - d) * (1 / 2)) - a.oldx -
          (b.x - (a.x - b.x) / d * ((a.radius + b.radius - d) * (1 / 2)) - b.oldx)) *
          ((a.x - b.x) / d) +
        (a.y + (a.y - b.y) / d * ((a.radius + b.radius - d) * (1 / 2)) - a.oldy -
          (b.y - (a.y - b.y) / d * ((a.radius + b.radius - d) * (1 / 2)) - b.oldy)) *
          ((a.y - b.y) / d) =
        (b.x + (b.x - a.x) / d * ((a.radius + b.radius - d) * (1 / 2)) - b.oldx -
          (a.x - (b.x - a.x) / d * ((a.radius + b.radius - d) * (1 / 2)) - a.oldx)) *
          ((b.x - a.x) / d) +
        (b.y + (b.y - a.y) / d * ((a.radius + b.radius - d) * (1 / 2)) - b.oldy -
          (a.y - (b.y - a.y) / d * ((a.radius + b.radius - d) * (1 / 2)) - a.oldy)) *
          ((b.y - a.y) / d) := by ring
    rw [hvn]
    split_ifs with hsep
    · refine ⟨?_, ?_⟩
      · simp only [Circle.mk.injEq, and_true, true_and]
        exact ⟨by ring, by ring⟩
      · simp only [Circle.mk.injEq, and_true, true_and]
        exact ⟨by ring, by ring⟩
    · refine ⟨?_, ?_⟩
      · simp only [Circle.mk.injEq, and_true, true_and]
        exact ⟨by ring, by ring, by ring, by ring⟩
      · simp only [Circle.mk.injEq, and_true, true_and]
        exact ⟨by ring, by ring, by ring, by ring⟩

/-- C3, at a concrete input: unit circles with centres (0,0) and (3,0). -/
theorem resolve_noop_witness :
    ResolveBallCollision Real.sqrt ⟨0, 0, 0, 0, 1, 0⟩ ⟨3, 0, 3, 0, 1, 0⟩ =
      ((⟨0, 0, 0, 0, 1, 0⟩ : Circle ℝ), (⟨3, 0, 3, 0, 1, 0⟩ : Circle ℝ)) :=
  resolve_noop ⟨0, 0, 0, 0, 1, 0⟩ ⟨3, 0, 3, 0, 1, 0⟩ (Or.inl (by
    have h3 : Real.sqrt (3 * 3) = 3 := Real.sqrt_mul_self (by norm_num)
    simp only [ballDist, sub_zero, mul_zero, add_zero, sub_self, h3]
    norm_num))

/-! ## The frame loop -/

section FrameLemmas

variable {α : Type}

theorem length_updateAt (f : Circle α → Circle α) (i : Nat) (bs : List (Circle α)) :
    (updateAt f i bs).length = bs.length := by
  unfold updateAt
  split <;> simp

theorem length_resolveAt [LinearOrderedField α] (sqrt : α → α) (i j : Nat)
    (bs : List (Circle α)) :
    (resolveAt sqrt i j bs).length = bs.length := by
  unfold resolveAt
  split <;> simp

/-- A fold commutes with a map that commutes with every step. -/
theorem foldl_comm_step {β ι : Type} (g : β → β) (f : β → ι → β) (l : List ι)
    (h : ∀ i ∈ l, ∀ x, g (f x i) = f (g x) i) (x : β) :
    g (l.foldl f x) = l.foldl f (g x) := by
  induction l generalizing x with
  | nil => rfl
  | cons i l ih =>
    simp only [List.foldl_cons]
    rw [ih (fun k hk => h k (List.mem_cons_of_mem _ hk)), h i (List.mem_cons_self _ _)]

/-- Two folds agree when their steps agree on every state satisfying an
invariant that the steps preserve. -/
theorem foldl_congr_inv {β ι : Type} (Inv : β → Prop) (f g : β → ι → β) (l : List ι)
    (hfg : ∀ i ∈ l, ∀ x, Inv x → f x i = g x i)
    (hinv : ∀ i ∈ l, ∀ x, Inv x → Inv (g x i)) (x : β) (hx : Inv x) :
    l.foldl f x = l.foldl g x := by
  induction l generalizing x with
  | nil => rfl
  | cons i l ih =>
    simp only [List.foldl_cons]
    rw [hfg i (List.mem_cons_self _ _) x hx]
    exact ih (fun k hk => hfg k (List.mem_cons_of_mem _ hk))
      (fun k hk => hinv k (List.mem_cons_of_mem _ hk)) _
      (hinv i (List.mem_cons_self _ _) x hx)

/-- An invariant preserved by every step is preserved by the fold. -/
theorem foldl_inv {β ι : Type} (Inv : β → Prop) (f : β → ι → β) (l : List ι)
    (hinv : ∀ i ∈ l, ∀ x, Inv x → Inv (f x i)) (x : β) (hx : Inv x) :
    Inv (l.foldl f x) := by
  induction l generalizing x with
  | nil => exact hx
  | cons i l ih =>
    simp only [List.foldl_cons]
    exact ih (fun k hk => hinv k (List.mem_cons_of_mem _ hk)) _
      (hinv i (List.mem_cons_self _ _) x hx)

/-- Applying `f` by reference at the positions of a suffix, one index after the
other, maps `f` over that suffix. -/
theorem foldl_updateAt_suffix (f : Circle α → Circle α) (suf pre : List (Circle α)) :
    (List.range' pre.length suf.length).foldl (fun bs i => updateAt f i bs) (pre ++ suf)
      = pre ++ suf.map f := by
  induction suf generalizing pre with
  | nil => simp
  | cons c suf ih =>
    simp only [List.length_cons, List.range'_succ, List.foldl_cons, List.map_cons]
    have h1 : updateAt f pre.length (pre ++ c :: suf) = (pre ++ [f c]) ++ suf := by
      have hget : (pre ++ c :: suf)[pre.length]? = some c := by
        rw [List.getElem?_append_right (Nat.le_refl _)]
        simp
      unfold updateAt
      rw [hget]
      simp
    rw [h1]
    have h2 := ih (pre ++ [f c])
    simp only [List.length_append, List.length_singleton] at h2
    rw [h2]
    simp

/-- The loop `for i < size: f(balls[i])` is `map f`. -/
theorem foldl_updateAt_range (f : Circle α → Circle α) (bs : List (Circle α)) :
    (List.range bs.length).foldl (fun l i => updateAt f i l) bs = bs.map f := by
  have h := foldl_updateAt_suffix f bs []
  simpa [List.range_eq_range'] using h

theorem updateAll_eq_map [LinearOrderedField α] (bs : List (Circle α)) :
    updateAll bs = bs.map UpdateCircle :=
  foldl_updateAt_range UpdateCircle bs

theorem updateAt_of_some (f : Circle α → Circle α) (k : Nat) (bs : List (Circle α))
    (c : Circle α) (h : bs[k]? = some c) : updateAt f k bs = bs.set k (f c) := by
  unfold updateAt
  rw [h]

theorem updateAt_of_none (f : Circle α → Circle α) (k : Nat) (bs : List (Circle α))
    (h : bs[k]? = none) : updateAt f k bs = bs := by
  unfold updateAt
  rw [h]

theorem resolveAt_of_some [LinearOrderedField α] (sqrt : α → α) (i j : Nat)
    (bs : List (Circle α)) (a b : Circle α) (hi : bs[i]? = some a) (hj : bs[j]? = some b) :
    resolveAt sqrt i j bs =
      (bs.set i (ResolveBallCollision sqrt a b).1).set j (ResolveBallCollision sqrt a b).2 := by
  unfold resolveAt
  rw [hi, hj]

theorem resolveAt_of_none [LinearOrderedField α] (sqrt : α → α) (i j : Nat)
    (bs : List (Circle α)) (h : bs[i]? = none ∨ bs[j]? = none) :
    resolveAt sqrt i j bs = bs := by
  unfold resolveAt
  rcases h with h | h
  · rw [h]
  · rw [h]
    cases bs[i]? <;> rfl

/-- A by-reference call on `balls[k]` commutes with a collision between two other
balls. -/
theorem updateAt_resolveAt_comm [LinearOrderedField α] (sqrt : α → α)
    (f : Circle α → Circle α) (i j k : Nat) (hki : k ≠ i) (hkj : k ≠ j)
    (bs : List (Circle α)) :
    updateAt f k (resolveAt sqrt i j bs) = resolveAt sqrt i j (updateAt f k bs) := by
  cases hk : bs[k]? with
  | none =>
    have hlen : bs.length ≤ k := List.getElem?_eq_none_iff.mp hk
    have hk2 : (resolveAt sqrt i j bs)[k]? = none :=
      List.getElem?_eq_none (by rw [length_resolveAt]; exact hlen)
    rw [updateAt_of_none f k _ hk2, updateAt_of_none f k _ hk]
  | some c =>
    rw [updateAt_of_some f k bs c hk]
    cases hi : bs[i]? with
    | none =>
      have hi2 : (bs.set k (f c))[i]? = none := by
        rw [List.getElem?_set_ne hki]
        exact hi
      rw [resolveAt_of_none sqrt i j _ (Or.inl hi), resolveAt_of_none sqrt i j _ (Or.inl hi2),
        updateAt_of_some f k bs c hk]
    | some a =>
      cases hj : bs[j]? with
      | none =>
        have hj2 : (bs.set k (f c))[j]? = none := by
          rw [List.getElem?_set_ne hkj]
          exact hj
        rw [resolveAt_of_none sqrt i j _ (Or.inr hj),
          resolveAt_of_none sqrt i j _ (Or.inr hj2), updateAt_of_some f k bs c hk]
      | some b =>
        have hi2 : (bs.set k (f c))[i]? = some a := by
          rw [List.getElem?_set_ne hki]
          exact hi
        have hj2 : (bs.set k (f c))[j]? = some b := by
          rw [List.getElem?_set_ne hkj]
          exact hj
        rw [resolveAt_of_some sqrt i j bs a b hi hj,
          resolveAt_of_some sqrt i j _ a b hi2 hj2]
        have hk2 : ((bs.set i (ResolveBallCollision sqrt a b).1).set j
            (ResolveBallCollision sqrt a b).2)[k]? = some c := by
          rw [List.getElem?_set_ne (Ne.symm hkj), List.getElem?_set_ne (Ne.symm hki)]
          exact hk
        rw [updateAt_of_some f k _ c hk2]
        rw [List.set_comm _ _ _ (Ne.symm hkj), List.set_comm _ _ _ (Ne.symm hki)]

/-- A by-reference call on `balls[k]` commutes with a run of collisions of ball `i`
with partners `j` taken from a list, when `k` is neither `i` nor a partner. -/
theorem updateAt_pairs_comm [LinearOrderedField α] (sqrt : α → α)
    (f : Circle α → Circle α) (i k : Nat) (l : List Nat) (hki : k ≠ i)
    (hl : ∀ j ∈ l, k ≠ j) (bs : List (Circle α)) :
    updateAt f k (l.foldl (fun x j => resolveAt sqrt i j x) bs) =
      l.foldl (fun x j => resolveAt sqrt i j x) (updateAt f k bs) :=
  foldl_comm_step (updateAt f k) (fun x j => resolveAt sqrt i j x) l
    (fun j hj x => updateAt_resolveAt_comm sqrt f i j k hki (hl j hj) x) bs

theorem length_pairs [LinearOrderedField α] (sqrt : α → α) (i : Nat) (l : List Nat)
    (bs : List (Circle α)) :
    (l.foldl (fun x j => resolveAt sqrt i j x) bs).length = bs.length :=
  foldl_inv (fun x => x.length = bs.length) (fun x j => resolveAt sqrt i j x) l
    (fun j _ x hx => (length_resolveAt sqrt i j x).trans hx) bs rfl

/-- Splitting an interleaved loop: when every `K s` commutes with every later
`P i` (`s < i`), running `K i` right after `P i` for each `i` of a range equals
running all the `P i` first and all the `K i` afterwards. -/
theorem foldl_interleave_split {β : Type} (P K : Nat → β → β)
    (hcomm : ∀ s i, s < i → ∀ x, K s (P i x) = P i (K s x)) (m s : Nat) (x : β) :
    (List.range' s m).foldl (fun y i => K i (P i y)) x =
      (List.range' s m).foldl (fun y i => K i y)
        ((List.range' s m).foldl (fun y i => P i y) x) := by
  induction m generalizing s x with
  | zero => rfl
  | succ m ih =>
    simp only [List.range'_succ, List.foldl_cons]
    rw [ih (s + 1) (K s (P s x))]
    congr 1
    exact (foldl_comm_step (K s) (fun y i => P i y) (List.range' (s + 1) m)
      (fun i hi y => hcomm s i (by
        have := (List.mem_range'_1.mp hi).1
        omega) y) (P s x)).symm

/-- A fold over a `flatMap` is the nested fold. -/
theorem foldl_flatMap_nested {β ι κ : Type} (f : β → κ → β) (g : ι → List κ) (l : List ι)
    (x : β) :
    (l.flatMap g).foldl f x = l.foldl (fun y i => (g i).foldl f y) x := by
  induction l generalizing x with
  | nil => rfl
  | cons i l ih =>
    simp only [List.flatMap_cons, List.foldl_append, List.foldl_cons]
    exact ih _

/-- All pairs, resolved in lexicographic order, written as the nested loop with
the vector length fixed at `n`. -/
theorem foldl_allPairs [LinearOrderedField α] (sqrt : α → α) (n : Nat)
    (bs : List (Circle α)) :
    (allPairs n).foldl (fun x p => resolveAt sqrt p.1 p.2 x) bs =
      (List.range' 0 n).foldl
        (fun y i => (List.range' (i + 1) (n - (i + 1))).foldl
          (fun x j => resolveAt sqrt i j x) y) bs := by
  unfold allPairs
  rw [foldl_flatMap_nested, List.range_eq_range']
  simp only [List.foldl_map]

theorem length_allPairs_fold [LinearOrderedField α] (sqrt : α → α) (l : List (Nat × Nat))
    (bs : List (Circle α)) :
    (l.foldl (fun x p => resolveAt sqrt p.1 p.2 x) bs).length = bs.length :=
  foldl_inv (fun x => x.length = bs.length) (fun x p => resolveAt sqrt p.1 p.2 x) l
    (fun p _ x hx => (length_resolveAt sqrt p.1 p.2 x).trans hx) bs rfl

/-- One pass of the loop of lines 352-357 computes the specified substep: the
constraint on `balls[i]`, executed right after the pairs `(i, j)`, commutes with
all later pairs `(i2, j)`, `i < i2 < j`, because they do not touch `balls[i]`. -/
theorem substep_eq_specSubstep [LinearOrderedField α] (sqrt : α → α)
    (container : Circle α) (bs : List (Circle α)) :
    substep sqrt container bs = specSubstep sqrt container bs := by
  unfold substep specSubstep
  have h1 : (List.range bs.length).foldl
        (fun x i => constrainAt sqrt container i (pairLoop sqrt i x)) bs =
      (List.range bs.length).foldl
        (fun x i => constrainAt sqrt container i
          ((List.range' (i + 1) (bs.length - (i + 1))).foldl
            (fun y j => resolveAt sqrt i j y) x)) bs := by
    apply foldl_congr_inv (fun x => x.length = bs.length)
    · intro i _ x hx
      have hx2 : x.length = bs.length := hx
      simp only [pairLoop, hx2]
    · intro i _ x hx
      have hx2 : x.length = bs.length := hx
      show (constrainAt sqrt container i _).length = bs.length
      unfold constrainAt
      rw [length_updateAt, length_pairs]
      exact hx2
    · rfl
  rw [h1, List.range_eq_range']
  rw [foldl_interleave_split
    (fun i y => (List.range' (i + 1) (bs.length - (i + 1))).foldl
      (fun x j => resolveAt sqrt i j x) y)
    (fun i y => constrainAt sqrt container i y)
    (fun s i hsi x => updateAt_pairs_comm sqrt _ i s _ (Nat.ne_of_lt hsi)
      (fun j hj => by
        have := (List.mem_range'_1.mp hj).1
        omega) x)]
  rw [← foldl_allPairs sqrt bs.length bs]
  have hlen := length_allPairs_fold sqrt (allPairs bs.length) bs
  have hmap := foldl_updateAt_range (fun p => ApplyCircularConstraint sqrt p container)
    ((allPairs bs.length).foldl (fun x p => resolveAt sqrt p.1 p.2 x) bs)
  rw [hlen, List.range_eq_range'] at hmap
  exact hmap

/-- The frame step equals the specified step, for every number of substeps. -/
theorem iterate_substep_eq [LinearOrderedField α] (sqrt : α → α) (container : Circle α)
    (n : Nat) (bs : List (Circle α)) :
    (substep sqrt container)^[n] bs = (specSubstep sqrt container)^[n] bs := by
  have h : substep sqrt container = specSubstep sqrt container :=
    funext (substep_eq_specSubstep sqrt container)
  rw [h]

/-! ### Radii along the frame step -/

theorem radius_UpdateCircle [LinearOrderedField α] (c : Circle α) :
    (UpdateCircle c).radius = c.radius := rfl

theorem radius_ApplyCircularConstraint [LinearOrderedField α] (sqrt : α → α)
    (p c : Circle α) : (ApplyCircularConstraint sqrt p c).radius = p.radius := by
  unfold ApplyCircularConstraint
  simp only []
  split_ifs <;> rfl

theorem radius_ResolveBallCollision [LinearOrderedField α] (sqrt : α → α)
    (a b : Circle α) :
    (ResolveBallCollision sqrt a b).1.radius = a.radius ∧
      (ResolveBallCollision sqrt a b).2.radius = b.radius := by
  unfold ResolveBallCollision
  simp only []
  split_ifs <;> exact ⟨rfl, rfl⟩

/-- A property of radii that holds for every ball still holds after a
by-reference call of a radius-preserving function. -/
theorem radii_updateAt (P : α → Prop) (f : Circle α → Circle α)
    (hf : ∀ c, (f c).radius = c.radius) (i : Nat) (bs : List (Circle α))
    (h : ∀ p ∈ bs, P p.radius) : ∀ p ∈ updateAt f i bs, P p.radius := by
  intro p hp
  cases hi : bs[i]? with
  | none =>
    rw [updateAt_of_none f i bs hi] at hp
    exact h p hp
  | some c =>
    rw [updateAt_of_some f i bs c hi] at hp
    rcases List.mem_or_eq_of_mem_set hp with hm | he
    · exact h p hm
    · rw [he, hf]
      exact h c (List.getElem?_mem hi)

theorem radii_resolveAt [LinearOrderedField α] (P : α → Prop) (sqrt : α → α) (i j : Nat)
    (bs : List (Circle α)) (h : ∀ p ∈ bs, P p.radius) :
    ∀ p ∈ resolveAt sqrt i j bs, P p.radius := by
  intro p hp
  cases hi : bs[i]? with
  | none =>
    rw [resolveAt_of_none sqrt i j bs (Or.inl hi)] at hp
    exact h p hp
  | some a =>
    cases hj : bs[j]? with
    | none =>
      rw [resolveAt_of_none sqrt i j bs (Or.inr hj)] at hp
      exact h p hp
    | some b =>
      rw [resolveAt_of_some sqrt i j bs a b hi hj] at hp
      have hr := radius_ResolveBallCollision sqrt a b
      rcases List.mem_or_eq_of_mem_set hp with hm | he
      · rcases List.mem_or_eq_of_mem_set hm with hm2 | he2
        · exact h p hm2
        · rw [he2, hr.1]
          exact h a (List.getElem?_mem hi)
      · rw [he, hr.2]
        exact h b (List.getElem?_mem hj)

theorem radii_specSubstep [LinearOrderedField α] (P : α → Prop) (sqrt : α → α)
    (container : Circle α) (bs : List (Circle α)) (h : ∀ p ∈ bs, P p.radius) :
    ∀ p ∈ specSubstep sqrt container bs, P p.radius := by
  intro p hp
  unfold specSubstep at hp
  obtain ⟨q, hq, rfl⟩ := List.mem_map.mp hp
  rw [radius_ApplyCircularConstraint]
  exact foldl_inv (fun x => ∀ p ∈ x, P p.radius)
    (fun x pr => resolveAt sqrt pr.1 pr.2 x) (allPairs bs.length)
    (fun pr _ x hx => radii_resolveAt P sqrt pr.1 pr.2 x hx) bs h q hq

theorem radii_iterate_specSubstep [LinearOrderedField α] (P : α → Prop) (sqrt : α → α)
    (container : Circle α) (n : Nat) (bs : List (Circle α)) (h : ∀ p ∈ bs, P p.radius) :
    ∀ p ∈ (specSubstep sqrt container)^[n] bs, P p.radius := by
  induction n with
  | zero => exact h
  | succ n ih =>
    rw [Function.iterate_succ_apply']
    exact radii_specSubstep P sqrt container _ ih

/-- After the boundary constraint a particle no larger than the container lies
within `container.radius - particle.radius` of the centre. -/
theorem applyConstraint_contained (p c : Circle ℝ) (h : p.radius ≤ c.radius) :
    centreDist Real.sqrt (ApplyCircularConstraint Real.sqrt p c) c
      ≤ c.radius - (ApplyCircularConstraint Real.sqrt p c).radius := by
  rw [radius_ApplyCircularConstraint]
  unfold centreDist ApplyCircularConstraint
  simp only []
  by_cases hd : Real.sqrt ((p.x - c.x) * (p.x - c.x) + (p.y - c.y) * (p.y - c.y))
      > c.radius - p.radius
  · rw [if_pos hd]
    simp only [add_sub_cancel_left]
    have hm : 0 ≤ c.radius - p.radius := by linarith
    rw [sqrt_scaled_normal _ _ _ (lt_of_le_of_lt hm hd).ne.symm hm]
  · rw [if_neg hd]
    exact not_lt.mp hd

/-- Every particle produced by a specified substep from balls no larger than the
container is contained. -/
theorem specSubstep_contained (container : Circle ℝ) (bs : List (Circle ℝ))
    (h : ∀ p ∈ bs, p.radius ≤ container.radius) :
    ∀ q ∈ specSubstep Real.sqrt container bs,
      centreDist Real.sqrt q container ≤ container.radius - q.radius := by
  intro q hq
  unfold specSubstep at hq
  obtain ⟨p, hp, rfl⟩ := List.mem_map.mp hq
  have hpr : p.radius ≤ container.radius :=
    foldl_inv (fun x => ∀ p ∈ x, p.radius ≤ container.radius)
      (fun x pr => resolveAt Real.sqrt pr.1 pr.2 x) (allPairs bs.length)
      (fun pr _ x hx => radii_resolveAt (fun r => r ≤ container.radius) Real.sqrt
        pr.1 pr.2 x hx) bs h p hp
  exact applyConstraint_contained p container hpr

/-- Containment holds after any positive number of specified substeps. -/
theorem contained_after_substeps (container : Circle ℝ) (n : Nat) (bs : List (Circle ℝ))
    (h : ∀ p ∈ bs, p.radius ≤ container.radius) :
    ∀ q ∈ (specSubstep Real.sqrt container)^[n + 1] bs,
      centreDist Real.sqrt q container ≤ container.radius - q.radius := by
  rw [Function.iterate_succ_apply']
  exact specSubstep_contained container _
    (radii_iterate_specSubstep (fun r => r ≤ container.radius) Real.sqrt container n bs h)

/-- The frame step computes the specified step (helper form). -/
theorem frameStep_eq_specStep_aux [LinearOrderedField α] (sqrt : α → α)
    (container : Circle α) (balls : List (Circle α)) :
    frameStep sqrt container balls = specStep sqrt container balls := by
  unfold frameStep specStep
  rw [updateAll_eq_map, iterate_substep_eq]

end FrameLemmas

/-- C1. Containment after a frame step: when every particle's radius is positive
and at most the container's radius, every particle of the list produced by one
frame step lies within `container.radius - particle.radius + eps` of the
container centre, for every `eps ≥ 0`. -/
theorem frameStep_contained (container : Circle ℝ) (balls : List (Circle ℝ))
    (h : ∀ p ∈ balls, 0 < p.radius ∧ p.radius ≤ container.radius) :
    ∀ q ∈ frameStep Real.sqrt container balls, ∀ eps : ℝ, 0 ≤ eps →
      centreDist Real.sqrt q container ≤ container.radius - q.radius + eps := by
  intro q hq eps heps
  have h0 : ∀ p ∈ balls.map UpdateCircle, p.radius ≤ container.radius := by
    intro p hp
    obtain ⟨c, hc, rfl⟩ := List.mem_map.mp hp
    exact (h c hc).2
  have hstep : frameStep Real.sqrt container balls =
      (specSubstep Real.sqrt container)^[7 + 1] (balls.map UpdateCircle) := by
    unfold frameStep
    rw [updateAll_eq_map, iterate_substep_eq]
    rfl
  rw [hstep] at hq
  have := contained_after_substeps container 7 (balls.map UpdateCircle) h0 q hq
  linarith

/-- C1, at a concrete input: the container of `main` (centre (300,300), radius
250) with one ball of radius 40 at (300,100) and one of radius 6 at (302,102). -/
theorem frameStep_contained_witness :
    (∀ p ∈ [(⟨300, 100, 300, 100, 40, 0⟩ : Circle ℝ), ⟨302, 102, 302, 102, 6, 0⟩],
      0 < p.radius ∧ p.radius ≤ (⟨300, 300, 0, 0, 250, 0⟩ : Circle ℝ).radius) ∧
    (∀ q ∈ frameStep Real.sqrt ⟨300, 300, 0, 0, 250, 0⟩
        [⟨300, 100, 300, 100, 40, 0⟩, ⟨302, 102, 302, 102, 6, 0⟩],
      ∀ eps : ℝ, 0 ≤ eps →
        centreDist Real.sqrt q ⟨300, 300, 0, 0, 250, 0⟩
          ≤ (⟨300, 300, 0, 0, 250, 0⟩ : Circle ℝ).radius - q.radius + eps) :=
  have hr : ∀ p ∈ [(⟨300, 100, 300, 100, 40, 0⟩ : Circle ℝ), ⟨302, 102, 302, 102, 6, 0⟩],
      0 < p.radius ∧ p.radius ≤ (⟨300, 300, 0, 0, 250, 0⟩ : Circle ℝ).radius := by
    intro p hp
    simp only [List.mem_cons, List.mem_singleton, List.not_mem_nil, or_false] at hp
    rcases hp with rfl | rfl <;> norm_num
  ⟨hr, frameStep_contained ⟨300, 300, 0, 0, 250, 0⟩
    [⟨300, 100, 300, 100, 40, 0⟩, ⟨302, 102, 302, 102, 6, 0⟩] hr⟩

/-- C7. Substep order: the frame step of n_collision.cpp (update every ball,
then 8 passes of the loop that runs the constraint on ball `i` right after the
pairs `(i, j)`) produces the same list of particle states as the specified
schedule (integrate every particle; then 8 times: every pair `i < j` in
lexicographic order, and after all pairs the boundary constraint on every
particle). It holds for every ordered field and every square-root function. -/
theorem frameStep_eq_specStep {α : Type} [LinearOrderedField α] (sqrt : α → α)
    (container : Circle α) (balls : List (Circle α)) :
    frameStep sqrt container balls = specStep sqrt container balls := by
  unfold frameStep specStep
  rw [updateAll_eq_map, iterate_substep_eq]

/-! ## The boundary constraint in detail -/

/-- C13. Boundary reflection rule: when the particle is outside
(`dist > container.radius - particle.radius`, `dist > 0`), with
`n = (position - container.center) / dist` and `v = position - previousPosition`
taken before the call, `ApplyCircularConstraint` sets the position to
`container.center + n * (container.radius - particle.radius)` and leaves the
inferred velocity `ELASTICITY * (v - 2 * (v . n) * n)`, `ELASTICITY = 9/10`. -/
theorem constraint_reflects (particle container : Circle ℝ)
    (hd : centreDist Real.sqrt particle container > container.radius - particle.radius)
    (_h0 : centreDist Real.sqrt particle container > 0) :
    (ApplyCircularConstraint Real.sqrt particle container).x =
      container.x + (particle.x - container.x) / centreDist Real.sqrt particle container *
        (container.radius - particle.radius) ∧
    (ApplyCircularConstraint Real.sqrt particle container).y =
      container.y + (particle.y - container.y) / centreDist Real.sqrt particle container *
        (container.radius - particle.radius) ∧
    (ApplyCircularConstraint Real.sqrt particle container).x -
        (ApplyCircularConstraint Real.sqrt particle container).oldx =
      ELASTICITY * ((particle.x - particle.oldx) -
        2 * ((particle.x - particle.oldx) *
              ((particle.x - container.x) / centreDist Real.sqrt particle container) +
            (particle.y - particle.oldy) *
              ((particle.y - container.y) / centreDist Real.sqrt particle container)) *
          ((particle.x - container.x) / centreDist Real.sqrt particle container)) ∧
    (ApplyCircularConstraint Real.sqrt particle container).y -
        (ApplyCircularConstraint Real.sqrt particle container).oldy =
      ELASTICITY * ((particle.y - particle.oldy) -
        2 * ((particle.x - particle.oldx) *
              ((particle.x - container.x) / centreDist Real.sqrt particle container) +
            (particle.y - particle.oldy) *
              ((particle.y - container.y) / centreDist Real.sqrt particle container)) *
          ((particle.y - container.y) / centreDist Real.sqrt particle container)) ∧
    (ELASTICITY : ℝ) = 9 / 10 := by
  unfold centreDist at hd ⊢
  simp only [] at hd ⊢
  unfold ApplyCircularConstraint
  simp only []
  rw [if_pos hd]
  simp only []
  generalize Real.sqrt ((particle.x - container.x) * (particle.x - container.x) +
    (particle.y - container.y) * (particle.y - container.y)) = d
  generalize (particle.x - container.x) / d = nx
  generalize (particle.y - container.y) / d = ny
  exact ⟨trivial, trivial, by ring, by ring, rfl⟩

/-- C13, at a concrete input: radius 40 in the container of radius 250, centre
distance 300. -/
theorem constraint_reflects_witness :
    (ApplyCircularConstraint Real.sqrt ⟨300, 600, 300, 590, 40, 0⟩
        ⟨300, 300, 0, 0, 250, 0⟩).x =
      (⟨300, 300, 0, 0, 250, 0⟩ : Circle ℝ).x +
        ((⟨300, 600, 300, 590, 40, 0⟩ : Circle ℝ).x - (⟨300, 300, 0, 0, 250, 0⟩ : Circle ℝ).x) /
          centreDist Real.sqrt ⟨300, 600, 300, 590, 40, 0⟩ ⟨300, 300, 0, 0, 250, 0⟩ *
        ((⟨300, 300, 0, 0, 250, 0⟩ : Circle ℝ).radius -
          (⟨300, 600, 300, 590, 40, 0⟩ : Circle ℝ).radius) :=
  have h300 : centreDist Real.sqrt (⟨300, 600, 300, 590, 40, 0⟩ : Circle ℝ)
      ⟨300, 300, 0, 0, 250, 0⟩ = 300 := by
    have e : Real.sqrt (300 * 300) = 300 := Real.sqrt_mul_self (by norm_num)
    simp only [centreDist, sub_self, mul_zero, zero_add]
    norm_num
    rw [show (90000 : ℝ) = 300 * 300 by norm_num]
    exact e
  (constraint_reflects ⟨300, 600, 300, 590, 40, 0⟩ ⟨300, 300, 0, 0, 250, 0⟩
    (by rw [h300]; norm_num) (by rw [h300]; norm_num)).1

/-- C14. Boundary no-op when inside: when the centre distance is at most
`container.radius - particle.radius`, `ApplyCircularConstraint` returns the
particle unchanged in every field. -/
theorem constraint_noop_inside (particle container : Circle ℝ)
    (h : centreDist Real.sqrt particle container ≤ container.radius - particle.radius) :
    ApplyCircularConstraint Real.sqrt particle container = particle := by
  unfold centreDist at h
  simp only [] at h
  unfold ApplyCircularConstraint
  simp only []
  rw [if_neg (not_lt.mpr h)]

/-- C14, at a concrete input: the resting ball at (300,100) of radius 40 in the
container of radius 250 centred at (300,300). -/
theorem constraint_noop_inside_witness :
    ApplyCircularConstraint Real.sqrt ⟨300, 100, 300, 100, 40, 0⟩ ⟨300, 300, 0, 0, 250, 0⟩
      = (⟨300, 100, 300, 100, 40, 0⟩ : Circle ℝ) :=
  constraint_noop_inside ⟨300, 100, 300, 100, 40, 0⟩ ⟨300, 300, 0, 0, 250, 0⟩ (by
    have e : Real.sqrt (200 * 200) = 200 := Real.sqrt_mul_self (by norm_num)
    simp only [centreDist, sub_self, mul_zero, zero_add]
    norm_num
    rw [show (40000 : ℝ) = 200 * 200 by norm_num, e]
    norm_num)

/-- C15. Energy at a boundary event: when `ApplyCircularConstraint` corrects the
particle (`dist > container.radius - particle.radius`, `dist > 0`), the squared
inferred speed after the call is `ELASTICITY^2 = 81/100` times the squared
inferred speed before, hence not larger. -/
theorem constraint_energy (particle container : Circle ℝ)
    (hd : centreDist Real.sqrt particle container > container.radius - particle.radius)
    (h0 : centreDist Real.sqrt particle container > 0) :
    ((ApplyCircularConstraint Real.sqrt particle container).x -
        (ApplyCircularConstraint Real.sqrt particle container).oldx) ^ 2 +
      ((ApplyCircularConstraint Real.sqrt particle container).y -
        (ApplyCircularConstraint Real.sqrt particle container).oldy) ^ 2 =
      ELASTICITY ^ 2 *
        ((particle.x - particle.oldx) ^ 2 + (particle.y - particle.oldy) ^ 2) ∧
    (ELASTICITY : ℝ) ^ 2 = 81 / 100 ∧
    ((ApplyCircularConstraint Real.sqrt particle container).x -
        (ApplyCircularConstraint Real.sqrt particle container).oldx) ^ 2 +
      ((ApplyCircularConstraint Real.sqrt particle container).y -
        (ApplyCircularConstraint Real.sqrt particle container).oldy) ^ 2 ≤
      (particle.x - particle.oldx) ^ 2 + (particle.y - particle.oldy) ^ 2 := by
  unfold centreDist at hd h0
  simp only [] at hd h0
  have hu := normal_unit (particle.x - container.x) (particle.y - container.y)
    (ne_of_gt h0)
  have hE : (ELASTICITY : ℝ) ^ 2 = 81 / 100 := by
    unfold ELASTICITY
    norm_num
  have key : ((ApplyCircularConstraint Real.sqrt particle container).x -
        (ApplyCircularConstraint Real.sqrt particle container).oldx) ^ 2 +
      ((ApplyCircularConstraint Real.sqrt particle container).y -
        (ApplyCircularConstraint Real.sqrt particle container).oldy) ^ 2 =
      ELASTICITY ^ 2 *
        ((particle.x - particle.oldx) ^ 2 + (particle.y - particle.oldy) ^ 2) := by
    unfold ApplyCircularConstraint
    simp only []
    rw [if_pos hd]
    simp only []
    clear hd h0
    generalize Real.sqrt ((particle.x - container.x) * (particle.x - container.x) +
      (particle.y - container.y) * (particle.y - container.y)) = d at hu ⊢
    generalize (particle.x - container.x) / d = nx at hu ⊢
    generalize (particle.y - container.y) / d = ny at hu ⊢
    linear_combination (ELASTICITY ^ 2 * 4 *
      ((particle.x - particle.oldx) * nx + (particle.y - particle.oldy) * ny) ^ 2) * hu
  refine ⟨key, hE, ?_⟩
  rw [key, hE]
  have := add_nonneg (sq_nonneg (particle.x - particle.oldx))
    (sq_nonneg (particle.y - particle.oldy))
  linarith

/-- C15, at a concrete input: radius 40 in the container of radius 250, centre
distance 300, velocity (0, 10). -/
theorem constraint_energy_witness :
    (ELASTICITY : ℝ) ^ 2 = 81 / 100 :=
  have h300 : centreDist Real.sqrt (⟨300, 600, 300, 590, 40, 0⟩ : Circle ℝ)
      ⟨300, 300, 0, 0, 250, 0⟩ = 300 := by
    have e : Real.sqrt (300 * 300) = 300 := Real.sqrt_mul_self (by norm_num)
    simp only [centreDist, sub_self, mul_zero, zero_add]
    norm_num
    rw [show (90000 : ℝ) = 300 * 300 by norm_num]
    exact e
  (constraint_energy ⟨300, 600, 300, 590, 40, 0⟩ ⟨300, 300, 0, 0, 250, 0⟩
    (by rw [h300]; norm_num) (by rw [h300]; norm_num)).2.1

/-! ## The collision response in detail -/

/-- C16. Restitution: for an overlapping pair (`0 < dist < minDist`) whose
relative normal velocity after the positional correction `vn` is `≤ 0`,
`ResolveBallCollision` leaves `a` with the corrected velocity minus `j * n` and
`b` with the corrected velocity plus `j * n`, where `j = -(1 + ELASTICITY) * vn / 2`
carries no radius weighting; the relative normal velocity after the call is
`-ELASTICITY * vn = -(9/10) * vn`, and the tangential components (along
`(-ny, nx)`) of both velocities are those of the corrected velocities. -/
theorem impulse_restitution (a b : Circle ℝ)
    (h0 : 0 < ballDist Real.sqrt a b)
    (h1 : ballDist Real.sqrt a b < a.radius + b.radius)
    (hv : velAlongNormal Real.sqrt a b ≤ 0) :
    (ResolveBallCollision Real.sqrt a b).1.x - (ResolveBallCollision Real.sqrt a b).1.oldx =
      (correctedVelA Real.sqrt a b).1 -
        -(1 + ELASTICITY) * velAlongNormal Real.sqrt a b / 2 *
          (collisionNormal Real.sqrt a b).1 ∧
    (ResolveBallCollision Real.sqrt a b).1.y - (ResolveBallCollision Real.sqrt a b).1.oldy =
      (correctedVelA Real.sqrt a b).2 -
        -(1 + ELASTICITY) * velAlongNormal Real.sqrt a b / 2 *
          (collisionNormal Real.sqrt a b).2 ∧
    (ResolveBallCollision Real.sqrt a b).2.x - (ResolveBallCollision Real.sqrt a b).2.oldx =
      (correctedVelB Real.sqrt a b).1 +
        -(1 + ELASTICITY) * velAlongNormal Real.sqrt a b / 2 *
          (collisionNormal Real.sqrt a b).1 ∧
    (ResolveBallCollision Real.sqrt a b).2.y - (ResolveBallCollision Real.sqrt a b).2.oldy =
      (correctedVelB Real.sqrt a b).2 +
        -(1 + ELASTICITY) * velAlongNormal Real.sqrt a b / 2 *
          (collisionNormal Real.sqrt a b).2 ∧
    (((ResolveBallCollision Real.sqrt a b).2.x - (ResolveBallCollision Real.sqrt a b).2.oldx) -
        ((ResolveBallCollision Real.sqrt a b).1.x -
          (ResolveBallCollision Real.sqrt a b).1.oldx)) *
        (collisionNormal Real.sqrt a b).1 +
      (((ResolveBallCollision Real.sqrt a b).2.y - (ResolveBallCollision Real.sqrt a b).2.oldy) -
        ((ResolveBallCollision Real.sqrt a b).1.y -
          (ResolveBallCollision Real.sqrt a b).1.oldy)) *
        (collisionNormal Real.sqrt a b).2 =
      -ELASTICITY * velAlongNormal Real.sqrt a b ∧
    -(ELASTICITY : ℝ) * velAlongNormal Real.sqrt a b =
      -(9 / 10) * velAlongNormal Real.sqrt a b ∧
    ((ResolveBallCollision Real.sqrt a b).1.x - (ResolveBallCollision Real.sqrt a b).1.oldx) *
        -(collisionNormal Real.sqrt a b).2 +
      ((ResolveBallCollision Real.sqrt a b).1.y - (ResolveBallCollision Real.sqrt a b).1.oldy) *
        (collisionNormal Real.sqrt a b).1 =
      (correctedVelA Real.sqrt a b).1 * -(collisionNormal Real.sqrt a b).2 +
        (correctedVelA Real.sqrt a b).2 * (collisionNormal Real.sqrt a b).1 ∧
    ((ResolveBallCollision Real.sqrt a b).2.x - (ResolveBallCollision Real.sqrt a b).2.oldx) *
        -(collisionNormal Real.sqrt a b).2 +
      ((ResolveBallCollision Real.sqrt a b).2.y - (ResolveBallCollision Real.sqrt a b).2.oldy) *
        (collisionNormal Real.sqrt a b).1 =
      (correctedVelB Real.sqrt a b).1 * -(collisionNormal Real.sqrt a b).2 +
        (correctedVelB Real.sqrt a b).2 * (collisionNormal Real.sqrt a b).1 := by
  unfold velAlongNormal correctedVelA correctedVelB collisionNormal at hv ⊢
  unfold ballDist at h0 h1
  simp only [] at h0 h1 hv ⊢
  have hu := normal_unit (b.x - a.x) (b.y - a.y) h0.ne.symm
  have hcond : ¬ (Real.sqrt ((b.x - a.x) * (b.x - a.x) + (b.y - a.y) * (b.y - a.y))
      ≥ a.radius + b.radius ∨
      Real.sqrt ((b.x - a.x) * (b.x - a.x) + (b.y - a.y) * (b.y - a.y)) = 0) := by
    rintro (h | h)
    · exact absurd h1 (not_lt.mpr h)
    · exact h0.ne.symm h
  unfold ResolveBallCollision
  simp only []
  rw [if_neg hcond, if_neg (not_lt.mpr hv)]
  simp only []
  clear hcond h0 h1 hv
  generalize Real.sqrt ((b.x - a.x) * (b.x - a.x) + (b.y - a.y) * (b.y - a.y)) = d at hu ⊢
  generalize (b.x - a.x) / d = nx at hu ⊢
  generalize (b.y - a.y) / d = ny at hu ⊢
  generalize (a.radius + b.radius - d) * (1 / 2) = c
  refine ⟨by ring, by ring, by ring, by ring, ?_, ?_, by ring, by ring⟩
  · unfold ELASTICITY
    linear_combination (-(19 / 10) *
      ((b.x + nx * c - b.oldx - (a.x - nx * c - a.oldx)) * nx +
        (b.y + ny * c - b.oldy - (a.y - ny * c - a.oldy)) * ny)) * hu
  · unfold ELASTICITY
    ring

/-- C16, at a concrete input: unit circles at (0,0) and (1,0) closing with
velocities (1,0) and (-1,0); `velAlongNormal = -1`. -/
theorem impulse_restitution_witness :
    -(ELASTICITY : ℝ) * velAlongNormal Real.sqrt ⟨0, 0, -1, 0, 1, 0⟩ ⟨1, 0, 2, 0, 1, 0⟩ =
      -(9 / 10) * velAlongNormal Real.sqrt ⟨0, 0, -1, 0, 1, 0⟩ ⟨1, 0, 2, 0, 1, 0⟩ :=
  (impulse_restitution ⟨0, 0, -1, 0, 1, 0⟩ ⟨1, 0, 2, 0, 1, 0⟩
    (by simp [ballDist]) (by simp [ballDist]) (by
      simp only [velAlongNormal, correctedVelA, correctedVelB, collisionNormal, sub_zero,
        mul_zero, add_zero, mul_one, Real.sqrt_one, div_one, sub_self, zero_mul, zero_div]
      norm_num)).2.2.2.2.2.1

/-- C17. Separating pairs: for an overlapping pair (`0 < dist < minDist`) whose
relative normal velocity after the positional correction is `≥ 0` (zero
included), `ResolveBallCollision` leaves both previous positions unchanged. -/
theorem separating_keeps_previous (a b : Circle ℝ)
    (h0 : 0 < ballDist Real.sqrt a b)
    (h1 : ballDist Real.sqrt a b < a.radius + b.radius)
    (hv : 0 ≤ velAlongNormal Real.sqrt a b) :
    (ResolveBallCollision Real.sqrt a b).1.oldx = a.oldx ∧
    (ResolveBallCollision Real.sqrt a b).1.oldy = a.oldy ∧
    (ResolveBallCollision Real.sqrt a b).2.oldx = b.oldx ∧
    (ResolveBallCollision Real.sqrt a b).2.oldy = b.oldy := by
  unfold velAlongNormal correctedVelA correctedVelB collisionNormal at hv
  unfold ballDist at h0 h1
  simp only [] at h0 h1 hv
  have hcond : ¬ (Real.sqrt ((b.x - a.x) * (b.x - a.x) + (b.y - a.y) * (b.y - a.y))
      ≥ a.radius + b.radius ∨
      Real.sqrt ((b.x - a.x) * (b.x - a.x) + (b.y - a.y) * (b.y - a.y)) = 0) := by
    rintro (h | h)
    · exact absurd h1 (not_lt.mpr h)
    · exact h0.ne.symm h
  unfold ResolveBallCollision
  simp only []
  rw [if_neg hcond]
  clear hcond h0 h1
  generalize Real.sqrt ((b.x - a.x) * (b.x - a.x) + (b.y - a.y) * (b.y - a.y)) = d at hv ⊢
  generalize (b.x - a.x) / d = nx at hv ⊢
  generalize (b.y - a.y) / d = ny at hv ⊢
  generalize (a.radius + b.radius - d) * (1 / 2) = c at hv ⊢
  by_cases hpos : (b.x + nx * c - b.oldx - (a.x - nx * c - a.oldx)) * nx +
      (b.y + ny * c - b.oldy - (a.y - ny * c - a.oldy)) * ny > 0
  · rw [if_pos hpos]
    exact ⟨rfl, rfl, rfl, rfl⟩
  · rw [if_neg hpos]
    have hz : (b.x + nx * c - b.oldx - (a.x - nx * c - a.oldx)) * nx +
        (b.y + ny * c - b.oldy - (a.y - ny * c - a.oldy)) * ny = 0 :=
      le_antisymm (not_lt.mp hpos) hv
    simp only [hz]
    exact ⟨by ring, by ring, by ring, by ring⟩

/-- C17, at a concrete input: two resting unit circles at (0,0) and (1,0);
`velAlongNormal = 1`. -/
theorem separating_keeps_previous_witness :
    (ResolveBallCollision Real.sqrt ⟨0, 0, 0, 0, 1, 0⟩ ⟨1, 0, 1, 0, 1, 0⟩).1.oldx
      = (⟨0, 0, 0, 0, 1, 0⟩ : Circle ℝ).oldx :=
  (separating_keeps_previous ⟨0, 0, 0, 0, 1, 0⟩ ⟨1, 0, 1, 0, 1, 0⟩
    (by simp [ballDist]) (by simp [ballDist]) (by
      simp only [velAlongNormal, correctedVelA, correctedVelB, collisionNormal, sub_zero,
        mul_zero, add_zero, mul_one, Real.sqrt_one, div_one, sub_self, zero_mul, zero_div]
      norm_num)).1

/-- C20. Momentum: for every two circles, the sum of the two inferred velocities
after `ResolveBallCollision` equals the sum before the call, in `x` and in `y`. -/
theorem resolve_momentum (a b : Circle ℝ) :
    ((ResolveBallCollision Real.sqrt a b).1.x - (ResolveBallCollision Real.sqrt a b).1.oldx) +
      ((ResolveBallCollision Real.sqrt a b).2.x - (ResolveBallCollision Real.sqrt a b).2.oldx)
      = (a.x - a.oldx) + (b.x - b.oldx) ∧
    ((ResolveBallCollision Real.sqrt a b).1.y - (ResolveBallCollision Real.sqrt a b).1.oldy) +
      ((ResolveBallCollision Real.sqrt a b).2.y - (ResolveBallCollision Real.sqrt a b).2.oldy)
      = (a.y - a.oldy) + (b.y - b.oldy) := by
  unfold ResolveBallCollision
  simp only []
  generalize Real.sqrt ((b.x - a.x) * (b.x - a.x) + (b.y - a.y) * (b.y - a.y)) = d
  generalize (b.x - a.x) / d = nx
  generalize (b.y - a.y) / d = ny
  generalize (a.radius + b.radius - d) * (1 / 2) = c
  split_ifs
  · exact ⟨rfl, rfl⟩
  · exact ⟨by ring, by ring⟩
  · exact ⟨by ring, by ring⟩

/-! ## The mouse-button handler -/

section MouseLemmas

variable {α : Type} [LinearOrderedField α]

theorem eraseFirstHit_of_no_hit (mx my : Int) (balls : List (Circle α))
    (h : ∀ ball ∈ balls, clickHits mx my ball = false) :
    eraseFirstHit mx my balls = none := by
  induction balls with
  | nil => rfl
  | cons ball rest ih =>
    have hb : clickHits mx my ball = false := h ball (List.mem_cons_self _ _)
    have hr := ih (fun c hc => h c (List.mem_cons_of_mem _ hc))
    show (if clickHits mx my ball = true then some rest
      else (eraseFirstHit mx my rest).map fun l => ball :: l) = none
    rw [hb, hr]
    rfl

theorem eraseFirstHit_append_hit (mx my : Int) (balls : List (Circle α)) (nb : Circle α)
    (h : ∀ ball ∈ balls, clickHits mx my ball = false) (hn : clickHits mx my nb = true) :
    eraseFirstHit mx my (balls ++ [nb]) = some balls := by
  induction balls with
  | nil => simp only [List.nil_append, eraseFirstHit, hn, if_true]
  | cons ball rest ih =>
    have hb : clickHits mx my ball = false := h ball (List.mem_cons_self _ _)
    have hr := ih (fun c hc => h c (List.mem_cons_of_mem _ hc))
    show (if clickHits mx my ball = true then some (rest ++ [nb])
      else (eraseFirstHit mx my (rest ++ [nb])).map fun l => ball :: l) = some (ball :: rest)
    rw [hb, hr]
    rfl

theorem clickHits_newBallAt (mx my : Int) (radius : α) (hr : 0 < radius) :
    clickHits mx my (newBallAt mx my radius) = true := by
  simp only [clickHits, newBallAt, sub_self, mul_zero, add_zero, decide_eq_true_eq]
  exact mul_pos hr hr

end MouseLemmas

/-- C11. Add then remove: when the click point lies strictly inside no ball of
the list, a mouse-down there appends a new ball (of any radius `> 0`) centred on
the point, and a second mouse-down at the same point erases exactly that ball:
the list is the original one, with the same length, and every other ball keeps
its state and position in the list. This holds in particular for the radii
`10 + rand() % 10` of the handler. -/
theorem add_then_remove (balls : List (Circle ℝ)) (mx my : Int) (radius radius2 : ℝ)
    (hr : 0 < radius)
    (hfree : ∀ ball ∈ balls, clickHits mx my ball = false) :
    mouseDownRadius radius mx my balls = balls ++ [newBallAt mx my radius] ∧
    mouseDownRadius radius2 mx my (mouseDownRadius radius mx my balls) = balls ∧
    (mouseDownRadius radius2 mx my (mouseDownRadius radius mx my balls)).length
      = balls.length ∧
    (∀ rnd rnd2 : Nat, mouseDown rnd2 mx my (mouseDown rnd mx my balls) = balls) := by
  have first : ∀ r : ℝ, mouseDownRadius r mx my balls = balls ++ [newBallAt mx my r] := by
    intro r
    unfold mouseDownRadius
    rw [eraseFirstHit_of_no_hit mx my balls hfree]
  have second : ∀ r r2 : ℝ, 0 < r →
      mouseDownRadius r2 mx my (balls ++ [newBallAt mx my r]) = balls := by
    intro r r2 hpos
    unfold mouseDownRadius
    rw [eraseFirstHit_append_hit mx my balls _ hfree (clickHits_newBallAt mx my r hpos)]
  refine ⟨first radius, ?_, ?_, ?_⟩
  · rw [first radius, second radius radius2 hr]
  · rw [first radius, second radius radius2 hr]
  · intro rnd rnd2
    unfold mouseDown
    rw [first, second]
    have : (0 : ℝ) < ((10 + rnd % 10 : Nat) : ℝ) := by
      have h10 : 0 < 10 + rnd % 10 := by omega
      exact_mod_cast h10
    exact this

/-- C11, at a concrete input: one ball of radius 6 at (300,100) and a click at
(10,10). -/
theorem add_then_remove_witness :
    mouseDownRadius (12 : ℝ) 10 10
        (mouseDownRadius 15 10 10 [⟨300, 100, 300, 100, 6, 0⟩])
      = [⟨300, 100, 300, 100, 6, 0⟩] :=
  (add_then_remove [⟨300, 100, 300, 100, 6, 0⟩] 10 10 15 12 (by norm_num) (by
    intro ball hb
    simp only [List.mem_singleton] at hb
    subst hb
    simp only [clickHits, decide_eq_false_iff_not, not_lt]
    norm_num)).2.1

/-! ## The four straight walls -/

/-- C18 (counterexample). A circle of radius 40 at (10,300) with velocity (-5,5)
violates the left wall only. `ApplyConstraints` snaps it to `x = 40` and leaves
the inferred velocity (9/2, 5), whereas the reflection rule of the circular form
with the wall normal `n = (1,0)`, `ELASTICITY * (v - 2 * (v . n) * n)`, gives
(9/2, 9/2): the tangential component is not scaled by `ELASTICITY`. -/
theorem wall_rule_differs :
    ((⟨10, 300, 15, 295, 40⟩ : Walls.Circle ℝ).x <
        (⟨10, 300, 15, 295, 40⟩ : Walls.Circle ℝ).radius ∧
      ¬ ((⟨10, 300, 15, 295, 40⟩ : Walls.Circle ℝ).x >
        Walls.WIDTH - (⟨10, 300, 15, 295, 40⟩ : Walls.Circle ℝ).radius) ∧
      ¬ ((⟨10, 300, 15, 295, 40⟩ : Walls.Circle ℝ).y <
        (⟨10, 300, 15, 295, 40⟩ : Walls.Circle ℝ).radius) ∧
      ¬ ((⟨10, 300, 15, 295, 40⟩ : Walls.Circle ℝ).y >
        Walls.HEIGHT - (⟨10, 300, 15, 295, 40⟩ : Walls.Circle ℝ).radius)) ∧
    Walls.ApplyConstraints (⟨10, 300, 15, 295, 40⟩ : Walls.Circle ℝ) =
      ⟨40, 300, 71 / 2, 295, 40⟩ ∧
    (Walls.ApplyConstraints (⟨10, 300, 15, 295, 40⟩ : Walls.Circle ℝ)).y -
        (Walls.ApplyConstraints (⟨10, 300, 15, 295, 40⟩ : Walls.Circle ℝ)).oldy = 5 ∧
    (ELASTICITY : ℝ) * (((⟨10, 300, 15, 295, 40⟩ : Walls.Circle ℝ).y -
        (⟨10, 300, 15, 295, 40⟩ : Walls.Circle ℝ).oldy) -
      2 * (((⟨10, 300, 15, 295, 40⟩ : Walls.Circle ℝ).x -
          (⟨10, 300, 15, 295, 40⟩ : Walls.Circle ℝ).oldx) * 1 +
        ((⟨10, 300, 15, 295, 40⟩ : Walls.Circle ℝ).y -
          (⟨10, 300, 15, 295, 40⟩ : Walls.Circle ℝ).oldy) * 0) * 0) = 9 / 2 ∧
    (Walls.ApplyConstraints (⟨10, 300, 15, 295, 40⟩ : Walls.Circle ℝ)).y -
        (Walls.ApplyConstraints (⟨10, 300, 15, 295, 40⟩ : Walls.Circle ℝ)).oldy ≠
      (ELASTICITY : ℝ) * (((⟨10, 300, 15, 295, 40⟩ : Walls.Circle ℝ).y -
          (⟨10, 300, 15, 295, 40⟩ : Walls.Circle ℝ).oldy) -
        2 * (((⟨10, 300, 15, 295, 40⟩ : Walls.Circle ℝ).x -
            (⟨10, 300, 15, 295, 40⟩ : Walls.Circle ℝ).oldx) * 1 +
          ((⟨10, 300, 15, 295, 40⟩ : Walls.Circle ℝ).y -
            (⟨10, 300, 15, 295, 40⟩ : Walls.Circle ℝ).oldy) * 0) * 0) := by
  have e : Walls.ApplyConstraints (⟨10, 300, 15, 295, 40⟩ : Walls.Circle ℝ) =
      ⟨40, 300, 71 / 2, 295, 40⟩ := by
    simp only [Walls.ApplyConstraints, Walls.WIDTH, Walls.HEIGHT, ELASTICITY]
    norm_num
  rw [e]
  simp only [Walls.WIDTH, Walls.HEIGHT, ELASTICITY]
  norm_num

/-- C18 (amended). For a circle of radius at most 300 that violates exactly one of
the four walls, `ApplyConstraints` snaps the coordinate normal to that wall onto
the wall (`radius` or `600 - radius`) and keeps the other coordinate; the
component of the inferred velocity along the wall normal becomes `-ELASTICITY`
times its value before the call, and the tangential component is unchanged. -/
theorem wall_rule (c : Walls.Circle ℝ) (h300 : c.radius ≤ 300) :
    (c.x < c.radius → ¬ (c.x > Walls.WIDTH - c.radius) → ¬ (c.y < c.radius) →
      ¬ (c.y > Walls.HEIGHT - c.radius) →
      (Walls.ApplyConstraints c).x = c.radius ∧ (Walls.ApplyConstraints c).y = c.y ∧
      (Walls.ApplyConstraints c).x - (Walls.ApplyConstraints c).oldx
        = -(ELASTICITY * (c.x - c.oldx)) ∧
      (Walls.ApplyConstraints c).y - (Walls.ApplyConstraints c).oldy = c.y - c.oldy) ∧
    (¬ (c.x < c.radius) → c.x > Walls.WIDTH - c.radius → ¬ (c.y < c.radius) →
      ¬ (c.y > Walls.HEIGHT - c.radius) →
      (Walls.ApplyConstraints c).x = Walls.WIDTH - c.radius ∧
      (Walls.ApplyConstraints c).y = c.y ∧
      (Walls.ApplyConstraints c).x - (Walls.ApplyConstraints c).oldx
        = -(ELASTICITY * (c.x - c.oldx)) ∧
      (Walls.ApplyConstraints c).y - (Walls.ApplyConstraints c).oldy = c.y - c.oldy) ∧
    (¬ (c.x < c.radius) → ¬ (c.x > Walls.WIDTH - c.radius) → c.y < c.radius →
      ¬ (c.y > Walls.HEIGHT - c.radius) →
      (Walls.ApplyConstraints c).x = c.x ∧ (Walls.ApplyConstraints c).y = c.radius ∧
      (Walls.ApplyConstraints c).x - (Walls.ApplyConstraints c).oldx = c.x - c.oldx ∧
      (Walls.ApplyConstraints c).y - (Walls.ApplyConstraints c).oldy
        = -(ELASTICITY * (c.y - c.oldy))) ∧
    (¬ (c.x < c.radius) → ¬ (c.x > Walls.WIDTH - c.radius) → ¬ (c.y < c.radius) →
      c.y > Walls.HEIGHT - c.radius →
      (Walls.ApplyConstraints c).x = c.x ∧
      (Walls.ApplyConstraints c).y = Walls.HEIGHT - c.radius ∧
      (Walls.ApplyConstraints c).x - (Walls.ApplyConstraints c).oldx = c.x - c.oldx ∧
      (Walls.ApplyConstraints c).y - (Walls.ApplyConstraints c).oldy
        = -(ELASTICITY * (c.y - c.oldy))) := by
  have hw : ¬ (c.radius > Walls.WIDTH - c.radius) := by
    unfold Walls.WIDTH
    intro h
    linarith
  have hh : ¬ (c.radius > Walls.HEIGHT - c.radius) := by
    unfold Walls.HEIGHT
    intro h
    linarith
  refine ⟨?_, ?_, ?_, ?_⟩
  · intro h1 _ h3 h4
    unfold Walls.ApplyConstraints
    simp only [if_pos h1, if_neg hw, if_neg h3, if_neg h4]
    exact ⟨trivial, trivial, by ring, trivial⟩
  · intro h1 h2 h3 h4
    unfold Walls.ApplyConstraints
    simp only [if_neg h1, if_pos h2, if_neg h3, if_neg h4]
    exact ⟨trivial, trivial, by ring, trivial⟩
  · intro h1 h2 h3 _
    unfold Walls.ApplyConstraints
    simp only [if_neg h1, if_neg h2, if_pos h3, if_neg hh]
    exact ⟨trivial, trivial, trivial, by ring⟩
  · intro h1 h2 h3 h4
    unfold Walls.ApplyConstraints
    simp only [if_neg h1, if_neg h2, if_neg h3, if_pos h4]
    exact ⟨trivial, trivial, trivial, by ring⟩

/-- C18 (amended), at a concrete input: the circle of radius 40 at (10,300) with
velocity (-5,5), which violates the left wall only. -/
theorem wall_rule_witness :
    (Walls.ApplyConstraints (⟨10, 300, 15, 295, 40⟩ : Walls.Circle ℝ)).y -
        (Walls.ApplyConstraints (⟨10, 300, 15, 295, 40⟩ : Walls.Circle ℝ)).oldy
      = (⟨10, 300, 15, 295, 40⟩ : Walls.Circle ℝ).y -
        (⟨10, 300, 15, 295, 40⟩ : Walls.Circle ℝ).oldy :=
  ((wall_rule ⟨10, 300, 15, 295, 40⟩ (by norm_num)).1 (by norm_num)
    (by simp only [Walls.WIDTH]; norm_num) (by norm_num)
    (by simp only [Walls.HEIGHT]; norm_num)).2.2.2

/-! ## Radius, colour and population -/

section TagLemmas

variable {α : Type}

/-- Overwriting `balls[i]` by a ball with the same image under `g` does not change
the list of images. -/
theorem map_set_same {β : Type} (g : Circle α → β) (bs : List (Circle α)) (i : Nat)
    (c0 c : Circle α) (h : bs[i]? = some c0) (hg : g c = g c0) :
    (bs.set i c).map g = bs.map g := by
  apply List.ext_getElem?
  intro n
  simp only [List.getElem?_map, List.getElem?_set]
  by_cases hin : i = n
  · subst hin
    rw [if_pos rfl, h]
    have hlt : i < bs.length := (List.getElem?_eq_some.mp h).1
    rw [if_pos hlt]
    simp only [Option.map_some', hg]
  · rw [if_neg hin]

theorem map_updateAt {β : Type} (g : Circle α → β) (f : Circle α → Circle α)
    (hf : ∀ c, g (f c) = g c) (i : Nat) (bs : List (Circle α)) :
    (updateAt f i bs).map g = bs.map g := by
  cases hi : bs[i]? with
  | none => rw [updateAt_of_none f i bs hi]
  | some c => rw [updateAt_of_some f i bs c hi, map_set_same g bs i c (f c) hi (hf c)]

theorem map_resolveAt [LinearOrderedField α] {β : Type} (g : Circle α → β)
    (sqrt : α → α)
    (hg : ∀ a b, g (ResolveBallCollision sqrt a b).1 = g a ∧
      g (ResolveBallCollision sqrt a b).2 = g b)
    (i j : Nat) (bs : List (Circle α)) :
    (resolveAt sqrt i j bs).map g = bs.map g := by
  cases hi : bs[i]? with
  | none => rw [resolveAt_of_none sqrt i j bs (Or.inl hi)]
  | some a =>
    cases hj : bs[j]? with
    | none => rw [resolveAt_of_none sqrt i j bs (Or.inr hj)]
    | some b =>
      rw [resolveAt_of_some sqrt i j bs a b hi hj]
      by_cases hij : i = j
      · subst hij
        rw [List.set_set]
        have hab : a = b := Option.some.inj (hi.symm.trans hj)
        subst hab
        exact map_set_same g bs i a _ hi (hg a a).2
      · have hj2 : (bs.set i (ResolveBallCollision sqrt a b).1)[j]? = some b := by
          rw [List.getElem?_set_ne hij]
          exact hj
        rw [map_set_same g _ j b _ hj2 (hg a b).2, map_set_same g bs i a _ hi (hg a b).1]

theorem color_ApplyCircularConstraint [LinearOrderedField α] (sqrt : α → α)
    (p c : Circle α) : (ApplyCircularConstraint sqrt p c).color = p.color := by
  unfold ApplyCircularConstraint
  simp only []
  split_ifs <;> rfl

theorem color_ResolveBallCollision [LinearOrderedField α] (sqrt : α → α)
    (a b : Circle α) :
    (ResolveBallCollision sqrt a b).1.color = a.color ∧
      (ResolveBallCollision sqrt a b).2.color = b.color := by
  unfold ResolveBallCollision
  simp only []
  split_ifs <;> exact ⟨rfl, rfl⟩

/-- Any observation of a ball that the three physics functions preserve is
preserved, index by index, by the specified substep. -/
theorem map_specSubstep [LinearOrderedField α] {β : Type} (g : Circle α → β)
    (sqrt : α → α) (container : Circle α)
    (hA : ∀ p, g (ApplyCircularConstraint sqrt p container) = g p)
    (hR : ∀ a b, g (ResolveBallCollision sqrt a b).1 = g a ∧
      g (ResolveBallCollision sqrt a b).2 = g b)
    (bs : List (Circle α)) :
    (specSubstep sqrt container bs).map g = bs.map g := by
  unfold specSubstep
  rw [List.map_map]
  have hcomp : (g ∘ fun p => ApplyCircularConstraint sqrt p container) = g :=
    funext hA
  rw [hcomp]
  exact foldl_inv (fun x => x.map g = bs.map g)
    (fun x pr => resolveAt sqrt pr.1 pr.2 x) (allPairs bs.length)
    (fun pr _ x hx => (map_resolveAt g sqrt hR pr.1 pr.2 x).trans hx) bs rfl

theorem map_iterate_specSubstep [LinearOrderedField α] {β : Type} (g : Circle α → β)
    (sqrt : α → α) (container : Circle α)
    (hA : ∀ p, g (ApplyCircularConstraint sqrt p container) = g p)
    (hR : ∀ a b, g (ResolveBallCollision sqrt a b).1 = g a ∧
      g (ResolveBallCollision sqrt a b).2 = g b)
    (n : Nat) (bs : List (Circle α)) :
    ((specSubstep sqrt container)^[n] bs).map g = bs.map g := by
  induction n with
  | zero => rfl
  | succ n ih =>
    rw [Function.iterate_succ_apply', map_specSubstep g sqrt container hA hR, ih]

/-- Any observation that the three physics functions preserve is preserved, index
by index, by the frame step. -/
theorem map_frameStep [LinearOrderedField α] {β : Type} (g : Circle α → β)
    (sqrt : α → α) (container : Circle α)
    (hU : ∀ c, g (UpdateCircle c) = g c)
    (hA : ∀ p, g (ApplyCircularConstraint sqrt p container) = g p)
    (hR : ∀ a b, g (ResolveBallCollision sqrt a b).1 = g a ∧
      g (ResolveBallCollision sqrt a b).2 = g b)
    (bs : List (Circle α)) :
    (frameStep sqrt container bs).map g = bs.map g := by
  unfold frameStep
  rw [updateAll_eq_map, iterate_substep_eq,
    map_iterate_specSubstep g sqrt container hA hR, List.map_map]
  have hcomp : (g ∘ UpdateCircle) = g := funext hU
  rw [hcomp]

end TagLemmas

/-- C19. Radius and population: `UpdateCircle`, `ApplyCircularConstraint` and
`ResolveBallCollision` return circles with the radius and colour they were given,
and the frame step returns a list of the same length whose radii and colours are,
index by index, those of the list it was given. (The container is a read-only
argument of all of them and is not part of what they return.) -/
theorem physics_keeps_radius_colour_population (container : Circle ℝ)
    (balls : List (Circle ℝ)) :
    (∀ c : Circle ℝ, (UpdateCircle c).radius = c.radius ∧
      (UpdateCircle c).color = c.color) ∧
    (∀ p : Circle ℝ, (ApplyCircularConstraint Real.sqrt p container).radius = p.radius ∧
      (ApplyCircularConstraint Real.sqrt p container).color = p.color) ∧
    (∀ a b : Circle ℝ,
      (ResolveBallCollision Real.sqrt a b).1.radius = a.radius ∧
      (ResolveBallCollision Real.sqrt a b).1.color = a.color ∧
      (ResolveBallCollision Real.sqrt a b).2.radius = b.radius ∧
      (ResolveBallCollision Real.sqrt a b).2.color = b.color) ∧
    (frameStep Real.sqrt container balls).length = balls.length ∧
    (frameStep Real.sqrt container balls).map (fun c => c.radius)
      = balls.map (fun c => c.radius) ∧
    (frameStep Real.sqrt container balls).map (fun c => c.color)
      = balls.map (fun c => c.color) := by
  have hr := map_frameStep (fun c : Circle ℝ => c.radius) Real.sqrt container
    (fun _ => rfl) (fun p => radius_ApplyCircularConstraint Real.sqrt p container)
    (fun a b => radius_ResolveBallCollision Real.sqrt a b) balls
  have hc := map_frameStep (fun c : Circle ℝ => c.color) Real.sqrt container
    (fun _ => rfl) (fun p => color_ApplyCircularConstraint Real.sqrt p container)
    (fun a b => color_ResolveBallCollision Real.sqrt a b) balls
  refine ⟨fun c => ⟨rfl, rfl⟩,
    fun p => ⟨radius_ApplyCircularConstraint Real.sqrt p container,
      color_ApplyCircularConstraint Real.sqrt p container⟩,
    fun a b => ⟨(radius_ResolveBallCollision Real.sqrt a b).1,
      (color_ResolveBallCollision Real.sqrt a b).1,
      (radius_ResolveBallCollision Real.sqrt a b).2,
      (color_ResolveBallCollision Real.sqrt a b).2⟩, ?_, hr, hc⟩
  have hl := congrArg List.length hr
  simp only [List.length_map] at hl
  exact hl

/-! ## The single-particle scenario -/

section ScenarioLemmas

theorem specSubstep_single {α : Type} [LinearOrderedField α] (sqrt : α → α)
    (c q : Circle α) :
    specSubstep sqrt c [q] = [ApplyCircularConstraint sqrt q c] := rfl

theorem iterate_specSubstep_single {α : Type} [LinearOrderedField α] (sqrt : α → α)
    (c : Circle α) (n : Nat) (q : Circle α) :
    (specSubstep sqrt c)^[n] [q] = [(fun p => ApplyCircularConstraint sqrt p c)^[n] q] := by
  induction n generalizing q with
  | zero => rfl
  | succ n ih =>
    rw [Function.iterate_succ_apply, Function.iterate_succ_apply, specSubstep_single, ih]

/-- Inside the container the constraint does nothing. -/
theorem applyConstraint_of_inside (p c : Circle ℝ)
    (h : centreDist Real.sqrt p c ≤ c.radius - p.radius) :
    ApplyCircularConstraint Real.sqrt p c = p := by
  unfold centreDist at h
  simp only [] at h
  unfold ApplyCircularConstraint
  simp only []
  rw [if_neg (not_lt.mpr h)]

/-- The constraint applied once more changes nothing. -/
theorem applyConstraint_idem (p c : Circle ℝ) (h : p.radius ≤ c.radius) :
    ApplyCircularConstraint Real.sqrt (ApplyCircularConstraint Real.sqrt p c) c =
      ApplyCircularConstraint Real.sqrt p c :=
  applyConstraint_of_inside _ c (applyConstraint_contained p c h)

theorem iterate_applyConstraint (p c : Circle ℝ) (h : p.radius ≤ c.radius) (n : Nat) :
    (fun q => ApplyCircularConstraint Real.sqrt q c)^[n + 1] p =
      ApplyCircularConstraint Real.sqrt p c := by
  induction n with
  | zero => rfl
  | succ n ih =>
    rw [Function.iterate_succ_apply', ih]
    exact applyConstraint_idem p c h

/-- With a single ball no larger than the container, the frame step is the update
followed by one application of the constraint. -/
theorem frameStep_single (c p : Circle ℝ) (h : p.radius ≤ c.radius) :
    frameStep Real.sqrt c [p] = [ApplyCircularConstraint Real.sqrt (UpdateCircle p) c] := by
  rw [frameStep_eq_specStep_aux]
  unfold specStep
  have h8 : SUBSTEP_COUNT = 7 + 1 := rfl
  rw [h8, List.map_singleton, iterate_specSubstep_single,
    iterate_applyConstraint (UpdateCircle p) c h 7]

theorem updateCircle_on_axis (y oy : ℝ) :
    UpdateCircle (⟨300, y, 300, oy, 40, 0⟩ : Circle ℝ) =
      ⟨300, 2 * y - oy + 1 / 2, 300, y, 40, 0⟩ := by
  simp only [UpdateCircle, GRAVITY, Circle.mk.injEq, and_true, true_and]
  constructor <;> ring

/-- A frame step of the scenario in free flight: the updated position stays
inside, so the constraint does nothing. -/
theorem scenario_free_step (y oy : ℝ) (hlo : 90 ≤ 2 * y - oy + 1 / 2)
    (hhi : 2 * y - oy + 1 / 2 ≤ 510) :
    frameStep Real.sqrt scenarioContainer [(⟨300, y, 300, oy, 40, 0⟩ : Circle ℝ)] =
      [⟨300, 2 * y - oy + 1 / 2, 300, y, 40, 0⟩] := by
  rw [frameStep_single _ _ (by show (40 : ℝ) ≤ 250; norm_num), updateCircle_on_axis,
    applyConstraint_of_inside]
  show Real.sqrt ((300 - 300) * (300 - 300) +
    (2 * y - oy + 1 / 2 - 300) * (2 * y - oy + 1 / 2 - 300)) ≤ 250 - 40
  rw [sub_self, mul_zero, zero_add, Real.sqrt_mul_self_eq_abs, abs_le]
  constructor <;> linarith

/-- A frame step of the scenario that overshoots the bottom of the container: the
ball is snapped to `y = 510` and its vertical velocity reflected and scaled. -/
theorem scenario_bounce_step (y oy : ℝ) (h : 510 < 2 * y - oy + 1 / 2) :
    frameStep Real.sqrt scenarioContainer [(⟨300, y, 300, oy, 40, 0⟩ : Circle ℝ)] =
      [⟨300, 510, 300, 510 + 9 / 10 * (y - oy + 1 / 2), 40, 0⟩] := by
  rw [frameStep_single _ _ (by show (40 : ℝ) ≤ 250; norm_num), updateCircle_on_axis]
  have hpos : 0 < 2 * y - oy + 1 / 2 - 300 := by linarith
  have hs : Real.sqrt ((2 * y - oy + 1 / 2 - 300) * (2 * y - oy + 1 / 2 - 300)) =
      2 * y - oy + 1 / 2 - 300 := Real.sqrt_mul_self hpos.le
  have hgt : 2 * y - oy + 1 / 2 - 300 > 250 - 40 := by linarith
  simp only [ApplyCircularConstraint, scenarioContainer, hs, if_pos hgt, ELASTICITY,
    sub_self, zero_div, zero_mul, mul_zero, add_zero, sub_zero, div_self hpos.ne.symm,
    one_mul, mul_one, zero_add, List.cons.injEq, and_true, Circle.mk.injEq, true_and]
  constructor <;> ring

theorem scenarioAfter_succ (k : Nat) :
    scenarioAfter Real.sqrt (k + 1) =
      frameStep Real.sqrt scenarioContainer (scenarioAfter Real.sqrt k) := by
  unfold scenarioAfter
  rw [Function.iterate_succ_apply']

/-- Free fall: for `k ≤ 40` the ball is at `y = 100 + k (k + 1) / 4` after `k`
steps, the previous position being that of step `k - 1`. -/
theorem scenario_fall (k : Nat) (hk : k ≤ 40) :
    scenarioAfter Real.sqrt k =
      [⟨300, 100 + (k : ℝ) * ((k : ℝ) + 1) / 4, 300,
        100 + ((k : ℝ) - 1) * (k : ℝ) / 4, 40, 0⟩] := by
  induction k with
  | zero =>
    simp only [scenarioAfter, scenarioBall, Function.iterate_zero, id_eq, Nat.cast_zero,
      zero_mul, mul_zero, zero_div, add_zero]
  | succ k ih =>
    have hk0 : (0 : ℝ) ≤ (k : ℝ) := Nat.cast_nonneg k
    have hk39 : (k : ℝ) ≤ 39 := by
      have : k ≤ 39 := by omega
      exact_mod_cast this
    rw [scenarioAfter_succ, ih (by omega), scenario_free_step _ _
      (by nlinarith [mul_nonneg hk0 hk0]) (by nlinarith [mul_nonneg hk0 hk0])]
    simp only [Nat.cast_add, Nat.cast_one, List.cons.injEq, and_true, Circle.mk.injEq,
      true_and]
    constructor <;> ring

theorem scenario_at_40 :
    scenarioAfter Real.sqrt 40 = [(⟨300, 510, 300, 490, 40, 0⟩ : Circle ℝ)] := by
  rw [scenario_fall 40 (le_refl _)]
  simp only [List.cons.injEq, and_true, Circle.mk.injEq, true_and]
  constructor <;> norm_num

theorem scenario_at_41 :
    scenarioAfter Real.sqrt 41 = [(⟨300, 510, 300, 10569 / 20, 40, 0⟩ : Circle ℝ)] := by
  rw [scenarioAfter_succ, scenario_at_40, scenario_bounce_step 510 490 (by norm_num)]
  simp only [List.cons.injEq, and_true, Circle.mk.injEq, true_and]
  norm_num

/-- After the bounce: for `j ≤ 72` the ball is at
`y = 510 - (369/20) j + j (j + 1) / 4` after `41 + j` steps. -/
theorem scenario_rise (j : Nat) (hj : j ≤ 72) :
    scenarioAfter Real.sqrt (41 + j) =
      [⟨300, 510 - 369 / 20 * (j : ℝ) + (j : ℝ) * ((j : ℝ) + 1) / 4, 300,
        510 - 369 / 20 * ((j : ℝ) - 1) + ((j : ℝ) - 1) * (j : ℝ) / 4, 40, 0⟩] := by
  induction j with
  | zero =>
    rw [Nat.add_zero, scenario_at_41]
    simp only [List.cons.injEq, and_true, Circle.mk.injEq, true_and]
    constructor <;> norm_num
  | succ j ih =>
    have hj0 : (0 : ℝ) ≤ (j : ℝ) := Nat.cast_nonneg j
    have hj71 : (j : ℝ) ≤ 71 := by
      have : j ≤ 71 := by omega
      exact_mod_cast this
    rw [← Nat.add_assoc, scenarioAfter_succ, ih (by omega), scenario_free_step _ _
      (by nlinarith [sq_nonneg ((j : ℝ) - 35)])
      (by nlinarith [mul_nonneg hj0 hj0, mul_nonneg hj0 (sub_nonneg.mpr hj71)])]
    simp only [Nat.cast_add, Nat.cast_one, List.cons.injEq, and_true, Circle.mk.injEq,
      true_and]
    constructor <;> ring

theorem scenario_at_114 :
    scenarioAfter Real.sqrt 114 = [(⟨300, 510, 300, 105249 / 200, 40, 0⟩ : Circle ℝ)] := by
  have h113 := scenario_rise 72 (le_refl _)
  rw [show 41 + 72 = 113 from rfl] at h113
  rw [scenarioAfter_succ, h113, scenario_bounce_step _ _ (by norm_num)]
  simp only [List.cons.injEq, and_true, Circle.mk.injEq, true_and]
  norm_num

/-- A radius property of all balls is kept by the frame step. -/
theorem radii_frameStep (P : ℝ → Prop) (container : Circle ℝ) (balls : List (Circle ℝ))
    (h : ∀ p ∈ balls, P p.radius) :
    ∀ p ∈ frameStep Real.sqrt container balls, P p.radius := by
  intro p hp
  have hm : p.radius ∈ (frameStep Real.sqrt container balls).map (fun c => c.radius) :=
    List.mem_map_of_mem _ hp
  rw [map_frameStep (fun c : Circle ℝ => c.radius) Real.sqrt container
    (fun _ => rfl) (fun q => radius_ApplyCircularConstraint Real.sqrt q container)
    (fun a b => radius_ResolveBallCollision Real.sqrt a b) balls] at hm
  obtain ⟨q, hq, e⟩ := List.mem_map.mp hm
  rw [← e]
  exact h q hq

/-- Containment after one frame step, for balls no larger than the container. -/
theorem frameStep_within (container : Circle ℝ) (balls : List (Circle ℝ))
    (h : ∀ p ∈ balls, p.radius ≤ container.radius) :
    ∀ q ∈ frameStep Real.sqrt container balls,
      centreDist Real.sqrt q container ≤ container.radius - q.radius := by
  intro q hq
  have hstep : frameStep Real.sqrt container balls =
      (specSubstep Real.sqrt container)^[7 + 1] (balls.map UpdateCircle) := by
    rw [frameStep_eq_specStep_aux]
    rfl
  rw [hstep] at hq
  have h0 : ∀ p ∈ balls.map UpdateCircle, p.radius ≤ container.radius := by
    intro p hp
    obtain ⟨c, hc, rfl⟩ := List.mem_map.mp hp
    exact h c hc
  exact contained_after_substeps container 7 (balls.map UpdateCircle) h0 q hq

theorem scenario_radii (k : Nat) :
    ∀ p ∈ scenarioAfter Real.sqrt k, p.radius ≤ (scenarioContainer : Circle ℝ).radius := by
  induction k with
  | zero =>
    intro p hp
    simp only [scenarioAfter, Function.iterate_zero, id_eq, List.mem_singleton] at hp
    subst hp
    show (40 : ℝ) ≤ 250
    norm_num
  | succ k ih =>
    rw [scenarioAfter_succ]
    exact radii_frameStep (fun r => r ≤ (scenarioContainer : Circle ℝ).radius) _ _ ih

end ScenarioLemmas

/-- C12 (counterexample). In the single-particle scenario the ball first touches
the boundary after step 40, at `y = 510`. After the bounce of step 41 (the first
step with negative vertical velocity) it is at `y = 510`, and after step 114 it
is at `y = 510` again: its `y` after the first bounce is not always strictly less
than its `y` at first contact. -/
theorem bounce_returns_to_contact :
    (∀ q ∈ scenarioAfter Real.sqrt 40, q.y = 510) ∧
    (∀ q ∈ scenarioAfter Real.sqrt 41, q.y = 510 ∧ q.y - q.oldy < 0) ∧
    (∀ q ∈ scenarioAfter Real.sqrt 114, q.y = 510) ∧
    ¬ (∀ k : Nat, 41 < k → ∀ q ∈ scenarioAfter Real.sqrt k, q.y < 510) := by
  refine ⟨?_, ?_, ?_, ?_⟩
  · intro q hq
    rw [scenario_at_40, List.mem_singleton] at hq
    rw [hq]
  · intro q hq
    rw [scenario_at_41, List.mem_singleton] at hq
    rw [hq]
    refine ⟨rfl, ?_⟩
    show (510 : ℝ) - 10569 / 20 < 0
    norm_num
  · intro q hq
    rw [scenario_at_114, List.mem_singleton] at hq
    rw [hq]
  · intro hall
    have h114 : (⟨300, 510, 300, 105249 / 200, 40, 0⟩ : Circle ℝ) ∈
        scenarioAfter Real.sqrt 114 := by
      rw [scenario_at_114]
      exact List.mem_singleton.mpr rfl
    have hlt : (510 : ℝ) < 510 := hall 114 (by norm_num) _ h114
    exact lt_irrefl _ hlt

/-- C12 (amended). The single-particle scenario (container centre (300,300),
radius 250; one ball at rest at (300,100), radius 40). After every frame step the
ball is
contained. It falls with positive vertical velocity for steps 1 to 40 and stays
strictly inside for steps 0 to 39; after step 40 it touches the boundary with
`y = 510` (first contact; the next update overshoots to `y = 1061/2`). Step 41 is
the bounce: the ball is at `y = 510` with vertical velocity `-369/20`, the first
sign reversal. From step 41 to 77 the velocity stays negative and at step 78 it is
positive again; from step 42 to 113 the ball's `y` is strictly less than 510, its
`y` at first contact. (At step 114 the second bounce puts it at `y = 510` again.) -/
theorem bounce_scenario :
    (∀ k : Nat, ∀ q ∈ scenarioAfter Real.sqrt (k + 1), ∀ eps : ℝ, 0 ≤ eps →
      centreDist Real.sqrt q scenarioContainer
        ≤ (scenarioContainer : Circle ℝ).radius - q.radius + eps) ∧
    (∀ k : Nat, 1 ≤ k → k ≤ 40 → ∀ q ∈ scenarioAfter Real.sqrt k, 0 < q.y - q.oldy) ∧
    (∀ k : Nat, k < 40 → ∀ q ∈ scenarioAfter Real.sqrt k,
      centreDist Real.sqrt q scenarioContainer
        < (scenarioContainer : Circle ℝ).radius - q.radius) ∧
    scenarioAfter Real.sqrt 40 = [(⟨300, 510, 300, 490, 40, 0⟩ : Circle ℝ)] ∧
    centreDist Real.sqrt (⟨300, 510, 300, 490, 40, 0⟩ : Circle ℝ) scenarioContainer
      = (scenarioContainer : Circle ℝ).radius - 40 ∧
    (UpdateCircle (⟨300, 510, 300, 490, 40, 0⟩ : Circle ℝ)).y = 1061 / 2 ∧
    scenarioAfter Real.sqrt 41 = [(⟨300, 510, 300, 10569 / 20, 40, 0⟩ : Circle ℝ)] ∧
    (∀ k : Nat, 41 ≤ k → k ≤ 77 → ∀ q ∈ scenarioAfter Real.sqrt k, q.y - q.oldy < 0) ∧
    (∀ q ∈ scenarioAfter Real.sqrt 78, 0 < q.y - q.oldy) ∧
    (∀ k : Nat, 42 ≤ k → k ≤ 113 → ∀ q ∈ scenarioAfter Real.sqrt k, q.y < 510) ∧
    scenarioAfter Real.sqrt 114 = [(⟨300, 510, 300, 105249 / 200, 40, 0⟩ : Circle ℝ)] := by
  refine ⟨?_, ?_, ?_, scenario_at_40, ?_, ?_, scenario_at_41, ?_, ?_, ?_, scenario_at_114⟩
  · intro k q hq eps heps
    rw [scenarioAfter_succ] at hq
    have := frameStep_within scenarioContainer _ (scenario_radii k) q hq
    linarith
  · intro k h1 h40 q hq
    rw [scenario_fall k h40, List.mem_singleton] at hq
    subst hq
    have hk : (1 : ℝ) ≤ (k : ℝ) := by exact_mod_cast h1
    show 0 < 100 + (k : ℝ) * ((k : ℝ) + 1) / 4 - (100 + ((k : ℝ) - 1) * (k : ℝ) / 4)
    nlinarith
  · intro k h40 q hq
    rw [scenario_fall k (le_of_lt h40), List.mem_singleton] at hq
    subst hq
    have hk0 : (0 : ℝ) ≤ (k : ℝ) := Nat.cast_nonneg k
    have hk39 : (k : ℝ) ≤ 39 := by
      have : k ≤ 39 := by omega
      exact_mod_cast this
    show Real.sqrt ((300 - 300) * (300 - 300) +
      (100 + (k : ℝ) * ((k : ℝ) + 1) / 4 - 300) *
        (100 + (k : ℝ) * ((k : ℝ) + 1) / 4 - 300)) < 250 - 40
    rw [sub_self, mul_zero, zero_add, Real.sqrt_mul_self_eq_abs, abs_lt]
    constructor <;> nlinarith [mul_nonneg hk0 hk0]
  · show Real.sqrt ((300 - 300) * (300 - 300) + (510 - 300) * (510 - 300)) = 250 - 40
    rw [sub_self, mul_zero, zero_add, Real.sqrt_mul_self (by norm_num)]
    norm_num
  · rw [updateCircle_on_axis]
    norm_num
  · intro k h41 h77 q hq
    obtain ⟨j, rfl⟩ := Nat.exists_eq_add_of_le h41
    rw [scenario_rise j (by omega), List.mem_singleton] at hq
    subst hq
    have hj36 : (j : ℝ) ≤ 36 := by
      have : j ≤ 36 := by omega
      exact_mod_cast this
    show 510 - 369 / 20 * (j : ℝ) + (j : ℝ) * ((j : ℝ) + 1) / 4 -
      (510 - 369 / 20 * ((j : ℝ) - 1) + ((j : ℝ) - 1) * (j : ℝ) / 4) < 0
    nlinarith
  · intro q hq
    have h := scenario_rise 37 (by norm_num)
    rw [show 41 + 37 = 78 from rfl] at h
    rw [h, List.mem_singleton] at hq
    subst hq
    norm_num
  · intro k h42 h113 q hq
    obtain ⟨j, rfl⟩ := Nat.exists_eq_add_of_le (show 41 ≤ k by omega)
    rw [scenario_rise j (by omega), List.mem_singleton] at hq
    subst hq
    have hj1 : (1 : ℝ) ≤ (j : ℝ) := by
      have : 1 ≤ j := by omega
      exact_mod_cast this
    have hj72 : (j : ℝ) ≤ 72 := by
      have : j ≤ 72 := by omega
      exact_mod_cast this
    show 510 - 369 / 20 * (j : ℝ) + (j : ℝ) * ((j : ℝ) + 1) / 4 < 510
    nlinarith

/-- C22. The four walls keep the circle inside the window: for a circle with
`0 < radius ≤ 300`, after `ApplyConstraints` the position satisfies
`radius ≤ x ≤ 600 - radius` and `radius ≤ y ≤ 600 - radius`; a coordinate that
was outside its range has its inferred velocity component replaced by
`-ELASTICITY` times the component inferred before the call. -/
theorem walls_keep_inside (c : Walls.Circle ℝ) (_h0 : 0 < c.radius)
    (h300 : c.radius ≤ 300) :
    (Walls.ApplyConstraints c).radius ≤ (Walls.ApplyConstraints c).x ∧
    (Walls.ApplyConstraints c).x ≤ 600 - (Walls.ApplyConstraints c).radius ∧
    (Walls.ApplyConstraints c).radius ≤ (Walls.ApplyConstraints c).y ∧
    (Walls.ApplyConstraints c).y ≤ 600 - (Walls.ApplyConstraints c).radius ∧
    (Walls.ApplyConstraints c).radius = c.radius ∧
    (c.x < c.radius ∨ c.x > Walls.WIDTH - c.radius →
      (Walls.ApplyConstraints c).x - (Walls.ApplyConstraints c).oldx
        = -ELASTICITY * (c.x - c.oldx)) ∧
    (c.y < c.radius ∨ c.y > Walls.HEIGHT - c.radius →
      (Walls.ApplyConstraints c).y - (Walls.ApplyConstraints c).oldy
        = -ELASTICITY * (c.y - c.oldy)) := by
  have hw : ¬ (c.radius > Walls.WIDTH - c.radius) := by
    unfold Walls.WIDTH
    intro h
    linarith
  have hh : ¬ (c.radius > Walls.HEIGHT - c.radius) := by
    unfold Walls.HEIGHT
    intro h
    linarith
  unfold Walls.ApplyConstraints
  simp only []
  by_cases h1 : c.x < c.radius
  · have h2 : ¬ (c.x > Walls.WIDTH - c.radius) := by
      unfold Walls.WIDTH
      intro h
      linarith
    by_cases h3 : c.y < c.radius
    · have h4 : ¬ (c.y > Walls.HEIGHT - c.radius) := by
        unfold Walls.HEIGHT
        intro h
        linarith
      simp only [if_pos h1, if_neg hw, if_pos h3, if_neg hh]
      refine ⟨le_refl _, by linarith, le_refl _, by linarith, trivial, ?_, ?_⟩
      · intro _
        ring
      · intro _
        ring
    · by_cases h4 : c.y > Walls.HEIGHT - c.radius
      · simp only [if_pos h1, if_neg hw, if_neg h3, if_pos h4]
        unfold Walls.HEIGHT at h4 ⊢
        refine ⟨le_refl _, by linarith, by linarith, le_refl _, trivial, ?_, ?_⟩
        · intro _
          ring
        · intro _
          ring
      · simp only [if_pos h1, if_neg hw, if_neg h3, if_neg h4]
        unfold Walls.HEIGHT at h4
        refine ⟨le_refl _, by linarith, not_lt.mp h3, by linarith, trivial, ?_, ?_⟩
        · intro _
          ring
        · rintro (h | h)
          · exact absurd h h3
          · exact absurd h (by unfold Walls.HEIGHT; exact h4)
  · by_cases h2 : c.x > Walls.WIDTH - c.radius
    · by_cases h3 : c.y < c.radius
      · simp only [if_neg h1, if_pos h2, if_pos h3, if_neg hh]
        unfold Walls.WIDTH at h2 ⊢
        refine ⟨by linarith, le_refl _, le_refl _, by linarith, trivial, ?_, ?_⟩
        · intro _
          ring
        · intro _
          ring
      · by_cases h4 : c.y > Walls.HEIGHT - c.radius
        · simp only [if_neg h1, if_pos h2, if_neg h3, if_pos h4]
          unfold Walls.WIDTH at h2 ⊢
          unfold Walls.HEIGHT at h4 ⊢
          refine ⟨by linarith, le_refl _, by linarith, le_refl _, trivial, ?_, ?_⟩
          · intro _
            ring
          · intro _
            ring
        · simp only [if_neg h1, if_pos h2, if_neg h3, if_neg h4]
          unfold Walls.WIDTH at h2 ⊢
          unfold Walls.HEIGHT at h4
          refine ⟨by linarith, le_refl _, not_lt.mp h3, by linarith, trivial, ?_, ?_⟩
          · intro _
            ring
          · rintro (h | h)
            · exact absurd h h3
            · exact absurd h (by unfold Walls.HEIGHT; exact h4)
    · unfold Walls.WIDTH at h2
      by_cases h3 : c.y < c.radius
      · simp only [if_neg h1, Walls.WIDTH, if_neg h2, if_pos h3, if_neg hh]
        refine ⟨not_lt.mp h1, by linarith, le_refl _, by linarith, trivial, ?_, ?_⟩
        · rintro (h | h)
          · exact absurd h h1
          · exact absurd h h2
        · intro _
          ring
      · by_cases h4 : c.y > Walls.HEIGHT - c.radius
        · simp only [if_neg h1, Walls.WIDTH, if_neg h2, if_neg h3, if_pos h4]
          unfold Walls.HEIGHT at h4 ⊢
          refine ⟨not_lt.mp h1, by linarith, by linarith, le_refl _, trivial, ?_, ?_⟩
          · rintro (h | h)
            · exact absurd h h1
            · exact absurd h h2
          · intro _
            ring
        · simp only [if_neg h1, Walls.WIDTH, if_neg h2, if_neg h3, if_neg h4]
          unfold Walls.HEIGHT at h4
          refine ⟨not_lt.mp h1, by linarith, not_lt.mp h3, by linarith, trivial, ?_, ?_⟩
          · rintro (h | h)
            · exact absurd h h1
            · exact absurd h h2
          · rintro (h | h)
            · exact absurd h h3
            · exact absurd h (by unfold Walls.HEIGHT; exact h4)

/-- C22, at a concrete input: the circle of radius 40 at (10,300) with velocity
(-5,5), left of the left wall. -/
theorem walls_keep_inside_witness :
    (Walls.ApplyConstraints (⟨10, 300, 15, 295, 40⟩ : Walls.Circle ℝ)).radius
      ≤ (Walls.ApplyConstraints (⟨10, 300, 15, 295, 40⟩ : Walls.Circle ℝ)).x :=
  (walls_keep_inside ⟨10, 300, 15, 295, 40⟩ (by norm_num) (by norm_num)).1

end MiniPhysics
